import Mathlib

/-!
# Dank-Memer-Grinder: configuration validation (`config/validate.go`)

A shallow embedding of the validators of `config/validate.go` and the
properties of them that the specification states.

Conventions of the embedding.

* A Go `error` is an `Option String`: `none` is `nil`, `some m` is an error
  whose `Error()` text is `m`.  `errors.New(m)` is `some m`, and
  `fmt.Errorf("p: %w", err)` is `some ("p: " ++ err)`.
* The struct, type and constant declarations of the package live outside
  `validate.go`.  The string-like enum types (`Theme`, `types.OnlineStatus`,
  `AdventureOption`, `FishLocation`) are strings, their constants are the
  fields of `Enums`, a parameter of every validator that names one.
* The bounds of delays, the quantities and the sell value are exact
  rationals.  That covers Go integers and every finite `float64`, on which
  `<`, `>` and `==` are exact.
* The two probability fields, which the specification calls floating values,
  are a `Float64`: a finite value, an infinity or NaN, compared the way Go
  compares a `float64`.
-/

namespace DMG

/-! ## Data model -/

/-- The Go `error` interface as far as the validators use it. -/
abbrev Error := Option String

abbrev Theme := String
abbrev OnlineStatus := String
abbrev AdventureOption := String
abbrev FishLocation := String

/-- The enum constants the validators name.  Their declarations are not in
`validate.go`, so the validators take them as a parameter. -/
structure Enums where
  System : Theme
  Dark : Theme
  Light : Theme
  OnlineStatusOnline : OnlineStatus
  OnlineStatusDND : OnlineStatus
  OnlineStatusIdle : OnlineStatus
  OnlineStatusInvisible : OnlineStatus
  OnlineStatusOffline : OnlineStatus
  Brazil : AdventureOption
  Space : AdventureOption
  Vacation : AdventureOption
  West : AdventureOption
  VertigoBeach : FishLocation
  WilyRiver : FishLocation
  UnderwaterSanctuary : FishLocation
  CampGuillermo : FishLocation
  ScurvyWaters : FishLocation
  NorthpointCabin : FishLocation

/-- Modelled from the spec: the constant declarations are missing from the
sources; the spec names the closed sets as theme in (System, Dark, Light),
the five online-status values, the four adventure options and the fish
locations.  Each constant is given the spelling of its name. -/
def Enums.spec : Enums where
  System := "System"
  Dark := "Dark"
  Light := "Light"
  OnlineStatusOnline := "Online"
  OnlineStatusDND := "DND"
  OnlineStatusIdle := "Idle"
  OnlineStatusInvisible := "Invisible"
  OnlineStatusOffline := "Offline"
  Brazil := "Brazil"
  Space := "Space"
  Vacation := "Vacation"
  West := "West"
  VertigoBeach := "VertigoBeach"
  WilyRiver := "WilyRiver"
  UnderwaterSanctuary := "UnderwaterSanctuary"
  CampGuillermo := "CampGuillermo"
  ScurvyWaters := "ScurvyWaters"
  NorthpointCabin := "NorthpointCabin"

/-- A Go `float64` as far as `<` and `>` see it: a finite value, kept exact as
a rational, an infinity, or NaN. -/
inductive Float64 where
  | finite (q : ℚ)
  | posInf
  | negInf
  | nan
  deriving DecidableEq

/-- Go's `a < b` on `float64`: false as soon as an operand is NaN. -/
def Float64.blt : Float64 → Float64 → Bool
  | .finite a, .finite b => decide (a < b)
  | .finite _, .posInf => true
  | .negInf, .finite _ => true
  | .negInf, .posInf => true
  | _, _ => false

/-- Go's `a <= b` on `float64`: false as soon as an operand is NaN. -/
def Float64.ble : Float64 → Float64 → Bool
  | .finite a, .finite b => decide (a ≤ b)
  | .finite _, .posInf => true
  | .negInf, .finite _ => true
  | .negInf, .posInf => true
  | .posInf, .posInf => true
  | .negInf, .negInf => true
  | _, _ => false

instance Float64.instLT : LT Float64 := ⟨fun a b => a.blt b = true⟩

instance Float64.instLE : LE Float64 := ⟨fun a b => a.ble b = true⟩

instance Float64.instDecidableLT (a b : Float64) : Decidable (a < b) :=
  inferInstanceAs (Decidable (a.blt b = true))

instance Float64.instDecidableLE (a b : Float64) : Decidable (a ≤ b) :=
  inferInstanceAs (Decidable (a.ble b = true))

/-- The constants `0` and `1` of the probability guards. -/
instance Float64.instOfNat (n : Nat) : OfNat Float64 n := ⟨.finite n⟩

structure GuiConfig where
  Theme : Theme

structure DelaySeconds where
  MinSeconds : ℚ
  MaxSeconds : ℚ

structure DelayMinutes where
  MinMinutes : ℚ
  MaxMinutes : ℚ

structure DelayHours where
  MinHours : ℚ
  MaxHours : ℚ

/-- A cooldown field validated by a `Validate()` without argument.  The
declaration of `Cooldowns` is not in `validate.go`; each such field has one
of the two types that own such a method. -/
inductive Delay where
  | seconds (d : DelaySeconds)
  | minutes (d : DelayMinutes)

structure Cooldowns where
  ButtonClickDelay : Delay
  CommandInterval : Delay
  BreakCooldown : DelayHours
  BreakDuration : DelayHours
  StartDelay : Delay
  EventDelay : Delay

structure AccountsConfig where
  Token : String
  ChannelID : String
  deriving DecidableEq

structure GeneralAutobuyConfig where
  State : Bool
  Amount : ℚ

structure AutoBuyConfig where
  HuntingRifle : GeneralAutobuyConfig
  Shovel : GeneralAutobuyConfig
  LifeSavers : GeneralAutobuyConfig

/-- The value type of the commands map; `Validate` reads its `Delay` only. -/
structure GeneralCommandConfig where
  Delay : ℚ
  deriving DecidableEq

structure AdventureCommandConfig where
  AdventureOption : AdventureOption

structure BlackjackCommandConfig where
  Amount : String

structure CrimeCommandConfig where
  Priority : List String
  SecondPriority : List String

structure FishCommandConfig where
  FishLocation : List FishLocation
  SellCoinsValue : ℚ

structure StreamCommandConfig where
  Order : List String

structure SearchCommandConfig where
  Priority : List String
  SecondPriority : List String

structure PostMemesCommandConfig where
  Platform : List String

structure TriviaCommandConfig where
  TriviaCorrectChance : Float64

/-- The commands section.  `CommandsMap` holds what `GetCommandsMap()`
returns. -/
structure CommandsConfig where
  CommandsMap : List (String × GeneralCommandConfig)
  Adventure : AdventureCommandConfig
  Blackjack : BlackjackCommandConfig
  Crime : CrimeCommandConfig
  Fish : FishCommandConfig
  Stream : StreamCommandConfig
  Search : SearchCommandConfig
  PostMemes : PostMemesCommandConfig
  Trivia : TriviaCommandConfig

structure Config where
  Gui : GuiConfig
  DiscordStatus : OnlineStatus
  EventsCorrectChance : Float64
  Cooldowns : Cooldowns
  Accounts : List AccountsConfig
  AutoBuy : AutoBuyConfig
  Commands : CommandsConfig

/-! ## Validators -/

/-- `fmt.Errorf("<segment>: %w", err)`. -/
def wrap (segment : String) (err : String) : String :=
  segment ++ ": " ++ err

def GuiConfig.Validate (K : Enums) (g : GuiConfig) : Error :=
  if g.Theme = K.System ∨ g.Theme = K.Dark ∨ g.Theme = K.Light then
    none
  else
    some ("invalid theme: " ++ g.Theme)

def isValidOnlineStatus (K : Enums) (status : OnlineStatus) : Bool :=
  if status = K.OnlineStatusOnline ∨ status = K.OnlineStatusDND ∨
      status = K.OnlineStatusIdle ∨ status = K.OnlineStatusInvisible ∨
      status = K.OnlineStatusOffline then
    true
  else
    false

def DelaySeconds.Validate (d : DelaySeconds) : Error :=
  if d.MinSeconds < 0 ∨ d.MaxSeconds < 0 then
    some "delays cannot be negative"
  else if d.MinSeconds > d.MaxSeconds then
    some "minSeconds cannot be greater than maxSeconds"
  else
    none

def DelayMinutes.Validate (d : DelayMinutes) : Error :=
  if d.MinMinutes < 0 ∨ d.MaxMinutes < 0 then
    some "delays cannot be negative"
  else if d.MinMinutes > d.MaxMinutes then
    some "minMinutes cannot be greater than maxMinutes"
  else
    none

def DelayHours.Validate (b : DelayHours) (allowZero : Bool) : Error :=
  if !allowZero ∧ (b.MinHours = 0 ∨ b.MaxHours = 0) then
    some "break time cannot be 0"
  else if b.MinHours < 0 ∨ b.MaxHours < 0 then
    some "break time cannot be negative"
  else if b.MinHours > b.MaxHours then
    some "minHours cannot be greater than maxHours"
  else
    none

/-- Method dispatch on the field's declared type. -/
def Delay.Validate : Delay → Error
  | .seconds d => d.Validate
  | .minutes d => d.Validate

/-- The lower bound of a delay field, whatever its unit. -/
def Delay.min : Delay → ℚ
  | .seconds d => d.MinSeconds
  | .minutes d => d.MinMinutes

/-- The upper bound of a delay field, whatever its unit. -/
def Delay.max : Delay → ℚ
  | .seconds d => d.MaxSeconds
  | .minutes d => d.MaxMinutes

def Cooldowns.Validate (c : Cooldowns) : Error :=
  match c.ButtonClickDelay.Validate with
  | some err => some (wrap "buttonClickDelay" err)
  | none =>
  match c.CommandInterval.Validate with
  | some err => some (wrap "commandInterval" err)
  | none =>
  match c.BreakCooldown.Validate false with
  | some err => some (wrap "breakCooldown" err)
  | none =>
  match c.BreakDuration.Validate true with
  | some err => some (wrap "breakDuration" err)
  | none =>
  match c.StartDelay.Validate with
  | some err => some (wrap "startDelay" err)
  | none =>
  match c.EventDelay.Validate with
  | some err => some (wrap "eventDelay" err)
  | none => none

def AccountsConfig.Validate (a : AccountsConfig) : Error :=
  if a.Token = "" then
    some "token is required"
  else if a.ChannelID = "" then
    some "channelID is required"
  else
    none

def GeneralAutobuyConfig.Validate (g : GeneralAutobuyConfig) : Error :=
  if g.State = true ∧ g.Amount < 0 then
    some "amount must be >= 0 when enabled"
  else
    none

def AutoBuyConfig.Validate (ab : AutoBuyConfig) : Error :=
  match ab.HuntingRifle.Validate with
  | some err => some (wrap "huntingRifle" err)
  | none =>
  match ab.Shovel.Validate with
  | some err => some (wrap "shovel" err)
  | none =>
  match ab.LifeSavers.Validate with
  | some err => some (wrap "lifeSavers" err)
  | none => none

/-- Indexing a Go `map[K]bool` literal: the zero value `false` for a key
that is absent. -/
def mapIndex (m : List (String × Bool)) (key : String) : Bool :=
  (m.lookup key).getD false

def validOptions (K : Enums) : List (AdventureOption × Bool) :=
  [(K.Brazil, true), (K.Space, true), (K.Vacation, true), (K.West, true)]

def AdventureCommandConfig.Validate (K : Enums) (a : AdventureCommandConfig) : Error :=
  if !mapIndex (validOptions K) a.AdventureOption then
    some ("invalid adventure option: " ++ a.AdventureOption)
  else
    none

def BlackjackCommandConfig.Validate (b : BlackjackCommandConfig) : Error :=
  if b.Amount = "" then some "amount is required" else none

def CrimeCommandConfig.Validate (c : CrimeCommandConfig) : Error :=
  if c.Priority.length = 0 ∧ c.SecondPriority.length = 0 then
    some "must have at least one priority or secondPriority crime"
  else
    none

def validLocations (K : Enums) : List (FishLocation × Bool) :=
  [(K.VertigoBeach, true), (K.WilyRiver, true), (K.UnderwaterSanctuary, true),
   (K.CampGuillermo, true), (K.ScurvyWaters, true), (K.NorthpointCabin, true)]

/-- The loop `for _, location := range f.FishLocation`: the error of the
first location that is not valid, `none` when the loop runs to its end. -/
def FishCommandConfig.locationLoop (K : Enums) : List DMG.FishLocation → Error
  | [] => none
  | location :: rest =>
    if !mapIndex (validLocations K) location then
      some ("invalid fish location: " ++ location)
    else
      FishCommandConfig.locationLoop K rest

def FishCommandConfig.Validate (K : Enums) (f : FishCommandConfig) : Error :=
  if f.FishLocation.length = 0 then
    some "at least one fish location must be specified"
  else
    match FishCommandConfig.locationLoop K f.FishLocation with
    | some err => some err
    | none =>
    if f.SellCoinsValue < 0 then
      some "sellCoinsValue cannot be negative"
    else
      none

def StreamCommandConfig.Validate (s : StreamCommandConfig) : Error :=
  if s.Order.length = 0 then some "order cannot be empty" else none

def SearchCommandConfig.Validate (s : SearchCommandConfig) : Error :=
  if s.Priority.length = 0 ∧ s.SecondPriority.length = 0 then
    some "must have at least one priority or secondPriority search"
  else
    none

def PostMemesCommandConfig.Validate (p : PostMemesCommandConfig) : Error :=
  if p.Platform.length = 0 then some "platform cannot be empty" else none

def TriviaCommandConfig.Validate (t : TriviaCommandConfig) : Error :=
  if t.TriviaCorrectChance < 0 ∨ t.TriviaCorrectChance > 1 then
    some "triviaCorrectChance must be between 0 and 1"
  else
    none

/-- Modelled from the spec: `GetCommandsMap` is not in the sources.  The spec
says the commands section "owns a mapping from command name to a generic
per-command config"; the mapping is the list of its entries, in the order in
which the `range` statement of `Validate` visits them. -/
def CommandsConfig.GetCommandsMap (c : CommandsConfig) : List (String × GeneralCommandConfig) :=
  c.CommandsMap

/-- The loop `for name, cmd := range commandsMap`: the error of the first
entry visited whose delay is negative, `none` when the loop runs to its end. -/
def CommandsConfig.delayLoop : List (String × GeneralCommandConfig) → Error
  | [] => none
  | (name, cmd) :: rest =>
    if cmd.Delay < 0 then
      some (name ++ ": delay cannot be negative")
    else
      CommandsConfig.delayLoop rest

def CommandsConfig.Validate (K : Enums) (c : CommandsConfig) : Error :=
  let commandsMap := c.GetCommandsMap
  match CommandsConfig.delayLoop commandsMap with
  | some err => some err
  | none =>
  match c.Adventure.Validate K with
  | some err => some (wrap "adventure" err)
  | none =>
  match c.Blackjack.Validate with
  | some err => some (wrap "blackjack" err)
  | none =>
  match c.Crime.Validate with
  | some err => some (wrap "crime" err)
  | none =>
  match c.Fish.Validate K with
  | some err => some (wrap "fish" err)
  | none =>
  match c.Stream.Validate with
  | some err => some (wrap "stream" err)
  | none =>
  match c.Search.Validate with
  | some err => some (wrap "search" err)
  | none =>
  match c.PostMemes.Validate with
  | some err => some (wrap "postMemes" err)
  | none =>
  match c.Trivia.Validate with
  | some err => some (wrap "trivia" err)
  | none => none

/-- The loop `for i, account := range c.Accounts`, entered at index `i`: the
error of the first account that fails, under `accounts[<index>]`, `none` when
the loop runs to its end. -/
def Config.accountsLoop : Nat → List AccountsConfig → Error
  | _, [] => none
  | i, account :: rest =>
    match account.Validate with
    | some err => some (wrap ("accounts[" ++ toString i ++ "]") err)
    | none => Config.accountsLoop (i + 1) rest

def Config.Validate (K : Enums) (c : Config) : Error :=
  match c.Gui.Validate K with
  | some err => some (wrap "gui" err)
  | none =>
  if !isValidOnlineStatus K c.DiscordStatus then
    some ("invalid discordStatus: " ++ c.DiscordStatus)
  else if c.EventsCorrectChance < 0 ∨ c.EventsCorrectChance > 1 then
    some "eventsCorrectChance must be between 0 and 1"
  else
  match c.Cooldowns.Validate with
  | some err => some (wrap "cooldowns" err)
  | none =>
  match Config.accountsLoop 0 c.Accounts with
  | some err => some err
  | none =>
  match c.AutoBuy.Validate with
  | some err => some (wrap "autoBuy" err)
  | none =>
  match c.Commands.Validate K with
  | some err => some (wrap "commands" err)
  | none => none

/-! ## The steps of the root validator, one at a time

For the ordering claims the outcome of each step of `Config.Validate` is
named on its own, so that "the earliest failing step" can be said. -/

/-- The step for the account at index `i`: its own failure under
`accounts[i]`. -/
def Config.accountStep (i : Nat) (account : AccountsConfig) : Error :=
  account.Validate.map (wrap ("accounts[" ++ toString i ++ "]"))

/-- What each step of `Config.Validate` yields when run alone, in the order
GUI section, discordStatus, eventsCorrectChance, cooldowns, the accounts in
index order, autoBuy, commands. -/
def Config.steps (K : Enums) (c : Config) : List Error :=
  [ (c.Gui.Validate K).map (wrap "gui"),
    if isValidOnlineStatus K c.DiscordStatus then none
      else some ("invalid discordStatus: " ++ c.DiscordStatus),
    if c.EventsCorrectChance < 0 ∨ c.EventsCorrectChance > 1 then
      some "eventsCorrectChance must be between 0 and 1" else none,
    c.Cooldowns.Validate.map (wrap "cooldowns") ]
  ++ (c.Accounts.enum.map fun p => Config.accountStep p.1 p.2)
  ++ [ c.AutoBuy.Validate.map (wrap "autoBuy"),
       (c.Commands.Validate K).map (wrap "commands") ]

/-- The first failure in a list of step outcomes, `none` when there is none. -/
def firstFailure : List Error → Error
  | [] => none
  | some e :: _ => some e
  | none :: rest => firstFailure rest

/-- The first character of a message, used to tell the messages of
different steps apart. -/
def firstChar (s : String) : Option Char := s.data.head?

/-- The keys of `validLocations`: the six legal fish locations. -/
def fishLocationSet (K : Enums) : List FishLocation :=
  [K.VertigoBeach, K.WilyRiver, K.UnderwaterSanctuary, K.CampGuillermo, K.ScurvyWaters,
   K.NorthpointCabin]

/-- Whether an entry of the commands map has a negative delay, the test of
the delay sweep. -/
def negativeDelay (p : String × GeneralCommandConfig) : Bool :=
  decide (p.2.Delay < 0)

/-! ## The sections of each parent validator

For the path-annotation claims each parent's section validators are listed
with the path segment the parent puts before their failure, in the order the
parent calls them. -/

/-- A child's result as its parent reports it: a failure `err` becomes
`fmt.Errorf("<segment>: %w", err)`, success stays success. -/
def annotate (p : String × Error) : Error :=
  p.2.map (wrap p.1)

def Cooldowns.sections (c : Cooldowns) : List (String × Error) :=
  [ ("buttonClickDelay", c.ButtonClickDelay.Validate),
    ("commandInterval", c.CommandInterval.Validate),
    ("breakCooldown", c.BreakCooldown.Validate false),
    ("breakDuration", c.BreakDuration.Validate true),
    ("startDelay", c.StartDelay.Validate),
    ("eventDelay", c.EventDelay.Validate) ]

def AutoBuyConfig.sections (ab : AutoBuyConfig) : List (String × Error) :=
  [ ("huntingRifle", ab.HuntingRifle.Validate),
    ("shovel", ab.Shovel.Validate),
    ("lifeSavers", ab.LifeSavers.Validate) ]

/-- The eight specialized validators of the commands section. -/
def CommandsConfig.sections (K : Enums) (c : CommandsConfig) : List (String × Error) :=
  [ ("adventure", c.Adventure.Validate K),
    ("blackjack", c.Blackjack.Validate),
    ("crime", c.Crime.Validate),
    ("fish", c.Fish.Validate K),
    ("stream", c.Stream.Validate),
    ("search", c.Search.Validate),
    ("postMemes", c.PostMemes.Validate),
    ("trivia", c.Trivia.Validate) ]

/-- The section validators of the root: GUI, cooldowns, one per account,
autoBuy, commands.  The status and events-chance steps are no sections. -/
def Config.sections (K : Enums) (c : Config) : List (String × Error) :=
  [ ("gui", c.Gui.Validate K), ("cooldowns", c.Cooldowns.Validate) ]
  ++ (c.Accounts.enum.map fun p => ("accounts[" ++ toString p.1 ++ "]", p.2.Validate))
  ++ [ ("autoBuy", c.AutoBuy.Validate), ("commands", c.Commands.Validate K) ]

/-- The root validator with the loop over the accounts left out. -/
def Config.ValidateWithoutAccounts (K : Enums) (c : Config) : Error :=
  match c.Gui.Validate K with
  | some err => some (wrap "gui" err)
  | none =>
  if !isValidOnlineStatus K c.DiscordStatus then
    some ("invalid discordStatus: " ++ c.DiscordStatus)
  else if c.EventsCorrectChance < 0 ∨ c.EventsCorrectChance > 1 then
    some "eventsCorrectChance must be between 0 and 1"
  else
  match c.Cooldowns.Validate with
  | some err => some (wrap "cooldowns" err)
  | none =>
  match c.AutoBuy.Validate with
  | some err => some (wrap "autoBuy" err)
  | none =>
  match c.Commands.Validate K with
  | some err => some (wrap "commands" err)
  | none => none

/-! ## Sample configurations -/

def sampleCooldowns : Cooldowns where
  ButtonClickDelay := .seconds ⟨1, 2⟩
  CommandInterval := .seconds ⟨2, 3⟩
  BreakCooldown := ⟨2, 4⟩
  BreakDuration := ⟨0, 0⟩
  StartDelay := .minutes ⟨0, 1⟩
  EventDelay := .seconds ⟨1, 1⟩

def sampleAutoBuy : AutoBuyConfig where
  HuntingRifle := ⟨true, 1⟩
  Shovel := ⟨false, -1⟩
  LifeSavers := ⟨true, 0⟩

def sampleCommands : CommandsConfig where
  CommandsMap := [("Adventure", ⟨5⟩), ("Fish", ⟨0⟩)]
  Adventure := ⟨"Space"⟩
  Blackjack := ⟨"1000"⟩
  Crime := ⟨["tax evasion"], []⟩
  Fish := ⟨["VertigoBeach"], 0⟩
  Stream := ⟨["Chat"]⟩
  Search := ⟨[], ["car"]⟩
  PostMemes := ⟨["Reddit"]⟩
  Trivia := ⟨1⟩

/-- A configuration every step of which passes, under `Enums.spec`. -/
def sampleConfig : Config where
  Gui := ⟨"Dark"⟩
  DiscordStatus := "Online"
  EventsCorrectChance := 1
  Cooldowns := sampleCooldowns
  Accounts := [⟨"abc", "123"⟩]
  AutoBuy := sampleAutoBuy
  Commands := sampleCommands

/-- The sample with a zero break-cooldown bound, and with an account, an
auto-buy item and a command that fail as well. -/
def zeroBreakConfig : Config where
  Gui := ⟨"Dark"⟩
  DiscordStatus := "Online"
  EventsCorrectChance := 1
  Cooldowns := { sampleCooldowns with BreakCooldown := ⟨0, 10⟩ }
  Accounts := [⟨"", ""⟩]
  AutoBuy := { sampleAutoBuy with Shovel := ⟨true, -1⟩ }
  Commands := { sampleCommands with Blackjack := ⟨""⟩ }

/-- A commands section whose map has two entries with a negative delay. -/
def twoNegativeCommands : CommandsConfig :=
  { sampleCommands with CommandsMap := [("Adventure", ⟨-1⟩), ("Fish", ⟨-2⟩)] }

/-- The section `twoNegativeCommands` with its map enumerated the other way
round. -/
def twoNegativeCommandsSwapped : CommandsConfig :=
  { twoNegativeCommands with CommandsMap := [("Fish", ⟨-2⟩), ("Adventure", ⟨-1⟩)] }

/-- A commands section with one negative delay, visited last, and all eight
specialized sub-configs invalid. -/
def badCommands : CommandsConfig where
  CommandsMap := [("Adventure", ⟨5⟩), ("Fish", ⟨0⟩), ("Trivia", ⟨-3⟩)]
  Adventure := ⟨"Mars"⟩
  Blackjack := ⟨""⟩
  Crime := ⟨[], []⟩
  Fish := ⟨[], -1⟩
  Stream := ⟨[]⟩
  Search := ⟨[], []⟩
  PostMemes := ⟨[]⟩
  Trivia := ⟨2⟩

/-- The sample configuration with the fish location `Mars`. -/
def marsConfig : Config :=
  { sampleConfig with Commands := { sampleCommands with Fish := ⟨["Mars"], 0⟩ } }

theorem finite_lt_zero (q : ℚ) : Float64.finite q < 0 ↔ q < 0 := by
  show decide (q < ((0 : ℕ) : ℚ)) = true ↔ q < 0
  simp

theorem finite_gt_one (q : ℚ) : Float64.finite q > 1 ↔ 1 < q := by
  show decide (((1 : ℕ) : ℚ) < q) = true ↔ 1 < q
  simp

/-- On a finite value the probability guard `v < 0 || v > 1` is the negation
of `0 ≤ v ≤ 1`. -/
theorem float_guard_finite (q : ℚ) :
    ¬ (Float64.finite q < 0 ∨ Float64.finite q > 1) ↔ 0 ≤ q ∧ q ≤ 1 := by
  rw [finite_lt_zero, finite_gt_one, not_or, not_lt, not_lt]

theorem accountsLoop_eq_none_iff (i : Nat) (l : List AccountsConfig) :
    Config.accountsLoop i l = none ↔ ∀ a ∈ l, a.Validate = none := by
  induction l generalizing i with
  | nil => simp [Config.accountsLoop]
  | cons a rest ih =>
    cases h : a.Validate with
    | none => simp [Config.accountsLoop, h, ih]
    | some e => simp [Config.accountsLoop, h]

theorem isValidOnlineStatus_iff (K : Enums) (status : OnlineStatus) :
    isValidOnlineStatus K status = true ↔
      (status = K.OnlineStatusOnline ∨ status = K.OnlineStatusDND ∨
        status = K.OnlineStatusIdle ∨ status = K.OnlineStatusInvisible ∨
        status = K.OnlineStatusOffline) := by
  unfold isValidOnlineStatus
  split <;> simp_all

theorem firstFailure_append (l₁ l₂ : List Error) :
    firstFailure (l₁ ++ l₂) =
      match firstFailure l₁ with
      | some e => some e
      | none => firstFailure l₂ := by
  induction l₁ with
  | nil => cases h : firstFailure l₂ <;> simp [firstFailure, h]
  | cons x rest ih =>
    cases x with
    | none => simpa [firstFailure] using ih
    | some e => simp [firstFailure]

theorem firstFailure_of_earliest (l : List Error) (k : Nat) (e : String)
    (hk : l[k]? = some (some e)) (hbefore : ∀ j < k, l[j]? = some none) :
    firstFailure l = some e := by
  induction l generalizing k with
  | nil => simp at hk
  | cons x rest ih =>
    cases k with
    | zero =>
      simp only [List.getElem?_cons_zero, Option.some.injEq] at hk
      simp [hk, firstFailure]
    | succ k =>
      have h0 := hbefore 0 (Nat.succ_pos k)
      simp only [List.getElem?_cons_zero, Option.some.injEq] at h0
      subst h0
      simp only [firstFailure]
      refine ih k (by simpa using hk) fun j hj => ?_
      simpa using hbefore (j + 1) (Nat.succ_lt_succ hj)

theorem accountsLoop_eq_firstFailure (i : Nat) (l : List AccountsConfig) :
    Config.accountsLoop i l =
      firstFailure ((l.enumFrom i).map fun p => Config.accountStep p.1 p.2) := by
  induction l generalizing i with
  | nil => simp [Config.accountsLoop, firstFailure]
  | cons a rest ih =>
    cases h : a.Validate with
    | none => simp [Config.accountsLoop, Config.accountStep, firstFailure, h, ih (i + 1)]
    | some e => simp [Config.accountsLoop, Config.accountStep, firstFailure, h]

theorem validate_eq_firstFailure (K : Enums) (c : Config) :
    Config.Validate K c = firstFailure (Config.steps K c) := by
  have hA := accountsLoop_eq_firstFailure 0 c.Accounts
  unfold Config.Validate Config.steps
  simp only [List.enum, firstFailure_append, ← hA]
  by_cases hE : c.EventsCorrectChance < 0 ∨ c.EventsCorrectChance > 1 <;>
    cases c.Gui.Validate K <;> cases isValidOnlineStatus K c.DiscordStatus <;>
    cases c.Cooldowns.Validate <;> cases Config.accountsLoop 0 c.Accounts <;>
    cases c.AutoBuy.Validate <;> cases c.Commands.Validate K <;>
    simp [firstFailure, hE]

theorem delaySeconds_valid_iff (d : DelaySeconds) :
    d.Validate = none ↔ 0 ≤ d.MinSeconds ∧ 0 ≤ d.MaxSeconds ∧ d.MinSeconds ≤ d.MaxSeconds := by
  unfold DelaySeconds.Validate
  by_cases h1 : d.MinSeconds < 0 ∨ d.MaxSeconds < 0
  · rw [if_pos h1]
    refine ⟨fun h => absurd h (by simp), fun ⟨a, b, _⟩ => ?_⟩
    rcases h1 with h | h
    · exact absurd a (not_le.mpr h)
    · exact absurd b (not_le.mpr h)
  · rw [if_neg h1]
    have h1' := not_or.mp h1
    by_cases h2 : d.MinSeconds > d.MaxSeconds
    · rw [if_pos h2]
      exact ⟨fun h => absurd h (by simp), fun ⟨_, _, c⟩ => absurd c (not_le.mpr h2)⟩
    · rw [if_neg h2]
      exact ⟨fun _ => ⟨not_lt.mp h1'.1, not_lt.mp h1'.2, not_lt.mp h2⟩, fun _ => rfl⟩

theorem delayMinutes_valid_iff (d : DelayMinutes) :
    d.Validate = none ↔ 0 ≤ d.MinMinutes ∧ 0 ≤ d.MaxMinutes ∧ d.MinMinutes ≤ d.MaxMinutes := by
  unfold DelayMinutes.Validate
  by_cases h1 : d.MinMinutes < 0 ∨ d.MaxMinutes < 0
  · rw [if_pos h1]
    refine ⟨fun h => absurd h (by simp), fun ⟨a, b, _⟩ => ?_⟩
    rcases h1 with h | h
    · exact absurd a (not_le.mpr h)
    · exact absurd b (not_le.mpr h)
  · rw [if_neg h1]
    have h1' := not_or.mp h1
    by_cases h2 : d.MinMinutes > d.MaxMinutes
    · rw [if_pos h2]
      exact ⟨fun h => absurd h (by simp), fun ⟨_, _, c⟩ => absurd c (not_le.mpr h2)⟩
    · rw [if_neg h2]
      exact ⟨fun _ => ⟨not_lt.mp h1'.1, not_lt.mp h1'.2, not_lt.mp h2⟩, fun _ => rfl⟩

/-- With the zero rule out of the way, `DelayHours.Validate` is the plain
range check. -/
theorem delayHours_valid_iff_of_no_zero_rule (b : DelayHours) (allowZero : Bool)
    (hz : ¬ (!allowZero ∧ (b.MinHours = 0 ∨ b.MaxHours = 0))) :
    (b.Validate allowZero = none ↔
      0 ≤ b.MinHours ∧ 0 ≤ b.MaxHours ∧ b.MinHours ≤ b.MaxHours) := by
  unfold DelayHours.Validate
  rw [if_neg hz]
  by_cases h1 : b.MinHours < 0 ∨ b.MaxHours < 0
  · rw [if_pos h1]
    refine ⟨fun h => absurd h (by simp), fun ⟨a, b, _⟩ => ?_⟩
    rcases h1 with h | h
    · exact absurd a (not_le.mpr h)
    · exact absurd b (not_le.mpr h)
  · rw [if_neg h1]
    have h1' := not_or.mp h1
    by_cases h2 : b.MinHours > b.MaxHours
    · rw [if_pos h2]
      exact ⟨fun h => absurd h (by simp), fun ⟨_, _, c⟩ => absurd c (not_le.mpr h2)⟩
    · rw [if_neg h2]
      exact ⟨fun _ => ⟨not_lt.mp h1'.1, not_lt.mp h1'.2, not_lt.mp h2⟩, fun _ => rfl⟩

theorem delayHours_allowZero_valid_iff (b : DelayHours) :
    b.Validate true = none ↔ 0 ≤ b.MinHours ∧ 0 ≤ b.MaxHours ∧ b.MinHours ≤ b.MaxHours :=
  delayHours_valid_iff_of_no_zero_rule b true (by simp)

theorem delayHours_forbidZero_of_zero (b : DelayHours)
    (hz : b.MinHours = 0 ∨ b.MaxHours = 0) :
    b.Validate false = some "break time cannot be 0" := by
  unfold DelayHours.Validate
  rw [if_pos ⟨by simp, hz⟩]

theorem delayHours_forbidZero_valid_iff (b : DelayHours) :
    b.Validate false = none ↔
      (0 ≤ b.MinHours ∧ 0 ≤ b.MaxHours ∧ b.MinHours ≤ b.MaxHours) ∧
        b.MinHours ≠ 0 ∧ b.MaxHours ≠ 0 := by
  by_cases hz : b.MinHours = 0 ∨ b.MaxHours = 0
  · rw [delayHours_forbidZero_of_zero b hz]
    refine ⟨fun h => absurd h (by simp), fun ⟨_, h1, h2⟩ => ?_⟩
    rcases hz with h | h
    · exact absurd h h1
    · exact absurd h h2
  · rw [delayHours_valid_iff_of_no_zero_rule b false (fun h => hz h.2)]
    have hz' := not_or.mp hz
    exact ⟨fun h => ⟨h, hz'.1, hz'.2⟩, fun h => h.1⟩

theorem firstChar_append (s t : String) (h : s.data ≠ []) :
    firstChar (s ++ t) = firstChar s := by
  unfold firstChar
  rw [String.data_append]
  cases hs : s.data with
  | nil => exact absurd hs h
  | cons c r => simp

theorem firstChar_wrap (segment err : String) (h : segment.data ≠ []) :
    firstChar (wrap segment err) = firstChar segment := by
  unfold wrap
  rw [firstChar_append _ _ (by rw [String.data_append]; simp [h]), firstChar_append _ _ h]

theorem firstChar_accountsLoop (i : Nat) (l : List AccountsConfig) (err : String)
    (h : Config.accountsLoop i l = some err) : firstChar err = some 'a' := by
  induction l generalizing i with
  | nil => simp [Config.accountsLoop] at h
  | cons a rest ih =>
    cases ha : a.Validate with
    | none =>
      rw [Config.accountsLoop, ha] at h
      exact ih (i + 1) h
    | some e =>
      rw [Config.accountsLoop, ha] at h
      simp only [Option.some.injEq] at h
      rw [← h, firstChar_wrap _ _ (by simp [String.data_append]),
        firstChar_append _ _ (by simp [String.data_append]),
        firstChar_append _ _ (by decide)]
      decide

/-- Once the GUI, status and events-chance steps have passed, whatever
`Config.Validate` reports does not start like the events-chance message. -/
theorem validate_past_events (K : Enums) (c : Config)
    (hgui : c.Gui.Validate K = none) (hstatus : isValidOnlineStatus K c.DiscordStatus = true)
    (hE : ¬ (c.EventsCorrectChance < 0 ∨ c.EventsCorrectChance > 1)) :
    ∀ err, Config.Validate K c = some err → firstChar err ≠ some 'e' := by
  intro err h
  unfold Config.Validate at h
  simp only [hgui, hstatus, Bool.not_true, Bool.false_eq_true, if_false, if_neg hE] at h
  cases hc : c.Cooldowns.Validate with
  | some e =>
    simp only [hc, Option.some.injEq] at h
    rw [← h, firstChar_wrap _ _ (by decide)]
    decide
  | none =>
    simp only [hc] at h
    cases hl : Config.accountsLoop 0 c.Accounts with
    | some e =>
      simp only [hl, Option.some.injEq] at h
      rw [← h, firstChar_accountsLoop 0 c.Accounts e hl]
      decide
    | none =>
      simp only [hl] at h
      cases hb : c.AutoBuy.Validate with
      | some e =>
        simp only [hb, Option.some.injEq] at h
        rw [← h, firstChar_wrap _ _ (by decide)]
        decide
      | none =>
        simp only [hb] at h
        cases hm : c.Commands.Validate K with
        | some e =>
          simp only [hm, Option.some.injEq] at h
          rw [← h, firstChar_wrap _ _ (by decide)]
          decide
        | none => simp [hm] at h

theorem mapIndex_all_true (keys : List String) (v : String) :
    mapIndex (keys.map fun k => (k, true)) v = true ↔ v ∈ keys := by
  induction keys with
  | nil => simp [mapIndex, List.lookup]
  | cons k rest ih =>
    by_cases h : v = k
    · simp [mapIndex, List.lookup, h]
    · have hb : (v == k) = false := by simpa using h
      have : mapIndex ((k :: rest).map fun k => (k, true)) v
          = mapIndex (rest.map fun k => (k, true)) v := by
        simp [mapIndex, List.lookup, hb]
      rw [this, ih]
      simp [h]

theorem mapIndex_validOptions (K : Enums) (v : AdventureOption) :
    mapIndex (validOptions K) v = true ↔
      (v = K.Brazil ∨ v = K.Space ∨ v = K.Vacation ∨ v = K.West) := by
  have h := mapIndex_all_true [K.Brazil, K.Space, K.Vacation, K.West] v
  simpa [validOptions] using h

theorem account_valid_iff (a : AccountsConfig) :
    a.Validate = none ↔ a.Token ≠ "" ∧ a.ChannelID ≠ "" := by
  unfold AccountsConfig.Validate
  by_cases h1 : a.Token = "" <;> by_cases h2 : a.ChannelID = "" <;> simp [h1, h2]

theorem accountsLoop_first (s i : Nat) (l : List AccountsConfig) (a : AccountsConfig)
    (e : String) (hi : l[i]? = some a) (ha : a.Validate = some e)
    (hbefore : ∀ j < i, ∀ b, l[j]? = some b → b.Validate = none) :
    Config.accountsLoop s l = some (wrap ("accounts[" ++ toString (s + i) ++ "]") e) := by
  induction l generalizing s i with
  | nil => simp at hi
  | cons x rest ih =>
    cases i with
    | zero =>
      simp only [List.getElem?_cons_zero, Option.some.injEq] at hi
      subst hi
      simp [Config.accountsLoop, ha]
    | succ i =>
      have hx : x.Validate = none := hbefore 0 (Nat.succ_pos i) x (by simp)
      rw [Config.accountsLoop, hx]
      have := ih (s + 1) i (by simpa using hi) fun j hj b hb =>
        hbefore (j + 1) (Nat.succ_lt_succ hj) b (by simpa using hb)
      have hs : s + 1 + i = s + (i + 1) := by omega
      rw [this, hs]

theorem wrap_accounts (i : Nat) (e : String) :
    wrap ("accounts[" ++ toString i ++ "]") e = "accounts[" ++ toString i ++ "]: " ++ e := by
  unfold wrap
  rw [String.append_assoc ("accounts[" ++ toString i) "]" ": "]
  rfl

theorem delay_valid_iff (d : Delay) :
    d.Validate = none ↔ 0 ≤ d.min ∧ d.min ≤ d.max := by
  cases d with
  | seconds d =>
    simp only [Delay.Validate, Delay.min, Delay.max, delaySeconds_valid_iff]
    exact ⟨fun ⟨a, _, c⟩ => ⟨a, c⟩, fun ⟨a, c⟩ => ⟨a, le_trans a c, c⟩⟩
  | minutes d =>
    simp only [Delay.Validate, Delay.min, Delay.max, delayMinutes_valid_iff]
    exact ⟨fun ⟨a, _, c⟩ => ⟨a, c⟩, fun ⟨a, c⟩ => ⟨a, le_trans a c, c⟩⟩

theorem cooldowns_valid_iff_parts (c : Cooldowns) :
    c.Validate = none ↔
      c.ButtonClickDelay.Validate = none ∧ c.CommandInterval.Validate = none ∧
      c.BreakCooldown.Validate false = none ∧ c.BreakDuration.Validate true = none ∧
      c.StartDelay.Validate = none ∧ c.EventDelay.Validate = none := by
  unfold Cooldowns.Validate
  cases c.ButtonClickDelay.Validate <;> cases c.CommandInterval.Validate <;>
    cases c.BreakCooldown.Validate false <;> cases c.BreakDuration.Validate true <;>
    cases c.StartDelay.Validate <;> cases c.EventDelay.Validate <;> simp

theorem mapIndex_validLocations (K : Enums) (v : FishLocation) :
    mapIndex (validLocations K) v = true ↔ v ∈ fishLocationSet K :=
  mapIndex_all_true (fishLocationSet K) v

theorem locationLoop_eq_none_iff (K : Enums) (l : List FishLocation) :
    FishCommandConfig.locationLoop K l = none ↔ ∀ x ∈ l, x ∈ fishLocationSet K := by
  induction l with
  | nil => simp [FishCommandConfig.locationLoop]
  | cons x rest ih =>
    by_cases hx : x ∈ fishLocationSet K
    · have hm := (mapIndex_validLocations K x).mpr hx
      simp [FishCommandConfig.locationLoop, hm, hx, ih]
    · have hm : mapIndex (validLocations K) x = false := by
        cases h : mapIndex (validLocations K) x with
        | false => rfl
        | true => exact absurd ((mapIndex_validLocations K x).mp h) hx
      simp [FishCommandConfig.locationLoop, hm, hx]

theorem locationLoop_first (K : Enums) (l : List FishLocation) (i : Nat) (x : FishLocation)
    (hi : l[i]? = some x) (hx : x ∉ fishLocationSet K)
    (hbefore : ∀ j < i, ∀ y, l[j]? = some y → y ∈ fishLocationSet K) :
    FishCommandConfig.locationLoop K l = some ("invalid fish location: " ++ x) := by
  induction l generalizing i with
  | nil => simp at hi
  | cons y rest ih =>
    cases i with
    | zero =>
      simp only [List.getElem?_cons_zero, Option.some.injEq] at hi
      subst hi
      have hm : mapIndex (validLocations K) y = false := by
        cases h : mapIndex (validLocations K) y with
        | false => rfl
        | true => exact absurd ((mapIndex_validLocations K y).mp h) hx
      simp [FishCommandConfig.locationLoop, hm]
    | succ i =>
      have hy : y ∈ fishLocationSet K := hbefore 0 (Nat.succ_pos i) y (by simp)
      have hm := (mapIndex_validLocations K y).mpr hy
      have := ih i (by simpa using hi) fun j hj z hz =>
        hbefore (j + 1) (Nat.succ_lt_succ hj) z (by simpa using hz)
      simp [FishCommandConfig.locationLoop, hm, this]

theorem delayLoop_eq_head (l : List (String × GeneralCommandConfig)) :
    CommandsConfig.delayLoop l =
      (l.filter negativeDelay).head?.map fun p => p.1 ++ ": delay cannot be negative" := by
  induction l with
  | nil => simp [CommandsConfig.delayLoop]
  | cons p rest ih =>
    obtain ⟨name, cmd⟩ := p
    by_cases h : cmd.Delay < 0
    · simp [CommandsConfig.delayLoop, negativeDelay, h]
    · simp [CommandsConfig.delayLoop, negativeDelay, h, ih]

theorem delayLoop_eq_none_iff (l : List (String × GeneralCommandConfig)) :
    CommandsConfig.delayLoop l = none ↔ ∀ p ∈ l, ¬ p.2.Delay < 0 := by
  induction l with
  | nil => simp [CommandsConfig.delayLoop]
  | cons p rest ih =>
    obtain ⟨name, cmd⟩ := p
    by_cases h : cmd.Delay < 0
    · simp [CommandsConfig.delayLoop, h]
    · simp [CommandsConfig.delayLoop, h, not_lt.mp h, ih]

theorem perm_eq_of_length_le_one {α : Type} (l l' : List α) (h : l.Perm l')
    (hlen : l.length ≤ 1) : l = l' := by
  match l, hlen with
  | [], _ => exact h.nil_eq
  | [a], _ => exact h.singleton_eq

theorem delayLoop_perm_none (l l' : List (String × GeneralCommandConfig)) (h : l.Perm l') :
    CommandsConfig.delayLoop l = none ↔ CommandsConfig.delayLoop l' = none := by
  rw [delayLoop_eq_none_iff, delayLoop_eq_none_iff]
  exact ⟨fun hl p hp => hl p (h.mem_iff.mpr hp), fun hl p hp => hl p (h.mem_iff.mp hp)⟩

theorem delayLoop_perm_eq (l l' : List (String × GeneralCommandConfig)) (h : l.Perm l')
    (hone : (l'.filter negativeDelay).length ≤ 1) :
    CommandsConfig.delayLoop l = CommandsConfig.delayLoop l' := by
  have hf := h.filter negativeDelay
  have := perm_eq_of_length_le_one _ _ hf.symm hone
  rw [delayLoop_eq_head, delayLoop_eq_head, this]

/-- The result of `CommandsConfig.Validate` depends on the map only through
the delay sweep. -/
theorem commands_validate_congr (K : Enums) (c : CommandsConfig)
    (l : List (String × GeneralCommandConfig))
    (h : CommandsConfig.delayLoop l = CommandsConfig.delayLoop c.GetCommandsMap) :
    CommandsConfig.Validate K { c with CommandsMap := l } = c.Validate K := by
  unfold CommandsConfig.Validate
  simp only [CommandsConfig.GetCommandsMap] at h ⊢
  rw [h]

theorem commands_validate_none_congr (K : Enums) (c : CommandsConfig)
    (l : List (String × GeneralCommandConfig))
    (h : CommandsConfig.delayLoop l = none ↔ CommandsConfig.delayLoop c.GetCommandsMap = none) :
    CommandsConfig.Validate K { c with CommandsMap := l } = none ↔ c.Validate K = none := by
  cases h1 : CommandsConfig.delayLoop l with
  | none =>
    have h2 := h.mp h1
    exact (commands_validate_congr K c l (h1.trans h2.symm)) ▸ Iff.rfl
  | some e =>
    cases h2 : CommandsConfig.delayLoop c.GetCommandsMap with
    | none => rw [h.mpr h2] at h1; exact absurd h1 (by simp)
    | some e2 =>
      simp only [CommandsConfig.GetCommandsMap] at h2
      simp [CommandsConfig.Validate, CommandsConfig.GetCommandsMap, h1, h2]

/-- The result of `Config.Validate` depends on the commands section only
through the result of `CommandsConfig.Validate`. -/
theorem validate_commands_congr (K : Enums) (c : Config) (m : CommandsConfig)
    (h : m.Validate K = c.Commands.Validate K) :
    Config.Validate K { c with Commands := m } = Config.Validate K c := by
  unfold Config.Validate
  simp only [h]

theorem validate_commands_none_congr (K : Enums) (c : Config) (m : CommandsConfig)
    (h : m.Validate K = none ↔ c.Commands.Validate K = none) :
    Config.Validate K { c with Commands := m } = none ↔ Config.Validate K c = none := by
  unfold Config.Validate
  simp only
  by_cases hE : c.EventsCorrectChance < 0 ∨ c.EventsCorrectChance > 1
  · simp only [if_pos hE]
  · simp only [if_neg hE]
    cases c.Gui.Validate K <;> cases isValidOnlineStatus K c.DiscordStatus <;>
      cases c.Cooldowns.Validate <;> cases Config.accountsLoop 0 c.Accounts <;>
      cases c.AutoBuy.Validate <;>
      cases h1 : m.Validate K <;> cases h2 : c.Commands.Validate K <;>
      simp_all

theorem firstFailure_annotated (l : List (String × Error)) (k : Nat) (segment m : String)
    (hk : l[k]? = some (segment, some m))
    (hbefore : ∀ j < k, l[j]?.map Prod.snd = some none) :
    firstFailure (l.map annotate) = some (segment ++ ": " ++ m) := by
  apply firstFailure_of_earliest _ k
  · simp [List.getElem?_map, hk, annotate, wrap]
  · intro j hj
    have hs := hbefore j hj
    cases hj' : l[j]? with
    | none => simp [hj'] at hs
    | some p =>
      obtain ⟨s, r⟩ := p
      simp only [hj', Option.map_some', Option.some.injEq] at hs
      subst hs
      simp [List.getElem?_map, hj', annotate]

theorem cooldowns_eq_firstFailure (c : Cooldowns) :
    c.Validate = firstFailure (c.sections.map annotate) := by
  unfold Cooldowns.Validate Cooldowns.sections
  cases c.ButtonClickDelay.Validate <;> cases c.CommandInterval.Validate <;>
    cases c.BreakCooldown.Validate false <;> cases c.BreakDuration.Validate true <;>
    cases c.StartDelay.Validate <;> cases c.EventDelay.Validate <;>
    simp [firstFailure, annotate]

theorem autoBuy_eq_firstFailure (ab : AutoBuyConfig) :
    ab.Validate = firstFailure (ab.sections.map annotate) := by
  unfold AutoBuyConfig.Validate AutoBuyConfig.sections
  cases ab.HuntingRifle.Validate <;> cases ab.Shovel.Validate <;>
    cases ab.LifeSavers.Validate <;> simp [firstFailure, annotate]

theorem commands_eq_firstFailure (K : Enums) (c : CommandsConfig)
    (hdelay : ∀ p ∈ c.GetCommandsMap, ¬ p.2.Delay < 0) :
    c.Validate K = firstFailure ((c.sections K).map annotate) := by
  have hloop := (delayLoop_eq_none_iff c.GetCommandsMap).mpr hdelay
  unfold CommandsConfig.Validate CommandsConfig.sections
  simp only [hloop]
  cases c.Adventure.Validate K <;> cases c.Blackjack.Validate <;> cases c.Crime.Validate <;>
    cases c.Fish.Validate K <;> cases c.Stream.Validate <;> cases c.Search.Validate <;>
    cases c.PostMemes.Validate <;> cases c.Trivia.Validate <;>
    simp [firstFailure, annotate]

theorem validate_eq_firstFailure_sections (K : Enums) (c : Config)
    (hstatus : isValidOnlineStatus K c.DiscordStatus = true)
    (hE : ¬ (c.EventsCorrectChance < 0 ∨ c.EventsCorrectChance > 1)) :
    Config.Validate K c = firstFailure ((Config.sections K c).map annotate) := by
  have hA : Config.accountsLoop 0 c.Accounts =
      firstFailure ((c.Accounts.enum.map fun p =>
        ("accounts[" ++ toString p.1 ++ "]", p.2.Validate)).map annotate) := by
    rw [accountsLoop_eq_firstFailure, List.map_map]
    rfl
  unfold Config.Validate Config.sections
  simp only [hstatus, Bool.not_true, Bool.false_eq_true, if_false, if_neg hE, List.map_append,
    firstFailure_append, ← hA]
  cases c.Gui.Validate K <;> cases c.Cooldowns.Validate <;>
    cases Config.accountsLoop 0 c.Accounts <;>
    cases c.AutoBuy.Validate <;> cases c.Commands.Validate K <;>
    simp [firstFailure, annotate]

theorem trivia_valid_iff (t : TriviaCommandConfig) :
    t.Validate = none ↔ ¬ (t.TriviaCorrectChance < 0 ∨ t.TriviaCorrectChance > 1) := by
  unfold TriviaCommandConfig.Validate
  by_cases h : t.TriviaCorrectChance < 0 ∨ t.TriviaCorrectChance > 1
  · rw [if_pos h]
    exact ⟨fun h' => absurd h' (by simp), fun h' => absurd h h'⟩
  · rw [if_neg h]
    exact ⟨fun _ => h, fun _ => rfl⟩

theorem map_enumFrom_index {α β : Type} (f : Nat → β) (i : Nat) (l : List α) :
    (l.enumFrom i).map (fun p => f p.1) = (List.range' i l.length).map f := by
  induction l generalizing i with
  | nil => simp
  | cons a rest ih => simp [List.enumFrom, List.range', ih]

theorem delayLoop_first (l : List (String × GeneralCommandConfig)) (i : Nat)
    (p : String × GeneralCommandConfig) (hi : l[i]? = some p) (hneg : p.2.Delay < 0)
    (hbefore : ∀ j < i, l[j]?.map negativeDelay = some false) :
    CommandsConfig.delayLoop l = some (p.1 ++ ": delay cannot be negative") := by
  induction l generalizing i with
  | nil => simp at hi
  | cons x rest ih =>
    obtain ⟨name, cmd⟩ := x
    cases i with
    | zero =>
      simp only [List.getElem?_cons_zero, Option.some.injEq] at hi
      subst hi
      simp [CommandsConfig.delayLoop, hneg]
    | succ i =>
      have h0 := hbefore 0 (Nat.succ_pos i)
      simp only [List.getElem?_cons_zero, Option.map_some', Option.some.injEq,
        negativeDelay, decide_eq_false_iff_not] at h0
      have := ih i (by simpa using hi) fun j hj => by
        simpa using hbefore (j + 1) (Nat.succ_lt_succ hj)
      simp [CommandsConfig.delayLoop, h0, this]

/-! ## Claims -/

/-- C2: `Config.Validate` is first-failure-wins over the fixed order of its
steps: when step `k` fails with `e` and every step before it passes, the
result is `e`, whatever the later steps would yield. -/
theorem Config.Validate_first_failure_wins (K : Enums) (c : Config) (k : Nat) (e : String)
    (hk : (Config.steps K c)[k]? = some (some e))
    (hbefore : ∀ j < k, (Config.steps K c)[j]? = some none) :
    Config.Validate K c = some e := by
  rw [validate_eq_firstFailure]
  exact firstFailure_of_earliest _ k e hk hbefore

/-- Witness for C2: in `zeroBreakConfig` the cooldowns step (index 3) is the
earliest failing one; the account, auto-buy and commands steps fail too and
are not reported. -/
theorem Config.Validate_first_failure_wins_witness :
    (Config.steps Enums.spec zeroBreakConfig)[4]? = some (some "accounts[0]: token is required") ∧
    Config.Validate Enums.spec zeroBreakConfig =
      some "cooldowns: breakCooldown: break time cannot be 0" :=
  ⟨by decide,
   Config.Validate_first_failure_wins Enums.spec zeroBreakConfig 3
    "cooldowns: breakCooldown: break time cannot be 0" (by decide) (by decide)⟩

/-- C3: every range-pair validator succeeds exactly when both bounds are
non-negative and `min ≤ max`; `DelayHours.Validate` with `allowZero = false`
asks in addition that neither bound is `0`. -/
theorem range_pair_valid_iff :
    (∀ d : DelaySeconds, d.Validate = none ↔
      0 ≤ d.MinSeconds ∧ 0 ≤ d.MaxSeconds ∧ d.MinSeconds ≤ d.MaxSeconds) ∧
    (∀ d : DelayMinutes, d.Validate = none ↔
      0 ≤ d.MinMinutes ∧ 0 ≤ d.MaxMinutes ∧ d.MinMinutes ≤ d.MaxMinutes) ∧
    (∀ b : DelayHours, b.Validate true = none ↔
      0 ≤ b.MinHours ∧ 0 ≤ b.MaxHours ∧ b.MinHours ≤ b.MaxHours) ∧
    (∀ b : DelayHours, b.Validate false = none ↔
      (0 ≤ b.MinHours ∧ 0 ≤ b.MaxHours ∧ b.MinHours ≤ b.MaxHours) ∧
        b.MinHours ≠ 0 ∧ b.MaxHours ≠ 0) := by
  exact ⟨delaySeconds_valid_iff, delayMinutes_valid_iff,
    delayHours_allowZero_valid_iff, delayHours_forbidZero_valid_iff⟩

/-- Counterexample to C4 as stated: for `min = 0`, `max = -1` a bound is
negative, yet `DelayHours.Validate(false)` reports the zero failure, not the
negative-bound failure. -/
theorem DelayHours.Validate_zero_before_negative :
    ((0 : ℚ) < 0 ∨ (-1 : ℚ) < 0) ∧
    DelayHours.Validate ⟨0, -1⟩ false = some "break time cannot be 0" ∧
    DelayHours.Validate ⟨0, -1⟩ false ≠ some "break time cannot be negative" ∧
    DelayHours.Validate ⟨-1, 0⟩ false = some "break time cannot be 0" := by
  decide

/-- C4 (amended): with `allowZero = false` the zero-forbidding rule comes
first.  For a pair with a negative bound the failure is "break time cannot be
negative" when neither bound is `0`, and "break time cannot be 0" when the
other bound is `0`. -/
theorem DelayHours.Validate_false_of_negative (b : DelayHours)
    (hneg : b.MinHours < 0 ∨ b.MaxHours < 0) :
    b.Validate false =
      if b.MinHours = 0 ∨ b.MaxHours = 0 then some "break time cannot be 0"
      else some "break time cannot be negative" := by
  unfold DelayHours.Validate
  by_cases hz : b.MinHours = 0 ∨ b.MaxHours = 0
  · rw [if_pos ⟨by simp, hz⟩, if_pos hz]
  · rw [if_neg (fun h => hz h.2), if_pos hneg, if_neg hz]

/-- Witness for C4 (amended): `min = -2`, `max = -3` has no zero bound and is
reported as negative, although it is disordered too. -/
theorem DelayHours.Validate_false_of_negative_witness :
    DelayHours.Validate ⟨-2, -3⟩ false = some "break time cannot be negative" :=
  (DelayHours.Validate_false_of_negative ⟨-2, -3⟩ (by decide)).trans (by decide)

/-- C5: in exact arithmetic the probability checks succeed exactly on
`[0, 1]`.  For every finite value `v`, `TriviaCommandConfig.Validate` succeeds
iff `0 ≤ v ≤ 1`, and, once the GUI and status steps have passed,
`Config.Validate` reports the events-chance failure iff `v` is outside
`[0, 1]`.  The values `0` and `1` pass, `-0.0001` and `1.0001` fail. -/
theorem probability_valid_iff :
    (∀ q : ℚ, TriviaCommandConfig.Validate ⟨.finite q⟩ = none ↔ 0 ≤ q ∧ q ≤ 1) ∧
    (∀ (K : Enums) (c : Config) (q : ℚ), c.EventsCorrectChance = .finite q →
      c.Gui.Validate K = none → isValidOnlineStatus K c.DiscordStatus = true →
      (Config.Validate K c ≠ some "eventsCorrectChance must be between 0 and 1" ↔
        0 ≤ q ∧ q ≤ 1)) ∧
    TriviaCommandConfig.Validate ⟨0⟩ = none ∧
    TriviaCommandConfig.Validate ⟨1⟩ = none ∧
    TriviaCommandConfig.Validate ⟨.finite (-1 / 10000)⟩ =
      some "triviaCorrectChance must be between 0 and 1" ∧
    TriviaCommandConfig.Validate ⟨.finite (10001 / 10000)⟩ =
      some "triviaCorrectChance must be between 0 and 1" ∧
    Config.Validate Enums.spec { sampleConfig with EventsCorrectChance := 0 } = none ∧
    Config.Validate Enums.spec { sampleConfig with EventsCorrectChance := 1 } = none ∧
    (∀ (K : Enums) (c : Config), c.Gui.Validate K = none →
      isValidOnlineStatus K c.DiscordStatus = true →
      (c.EventsCorrectChance = .finite (-1 / 10000) ∨
        c.EventsCorrectChance = .finite (10001 / 10000)) →
      Config.Validate K c = some "eventsCorrectChance must be between 0 and 1") := by
  have hev : ∀ (K : Enums) (c : Config), c.Gui.Validate K = none →
      isValidOnlineStatus K c.DiscordStatus = true →
      (c.EventsCorrectChance < 0 ∨ c.EventsCorrectChance > 1) →
      Config.Validate K c = some "eventsCorrectChance must be between 0 and 1" := by
    intro K c hgui hstatus hE
    unfold Config.Validate
    simp only [hgui, hstatus, Bool.not_true, Bool.false_eq_true, if_false, if_pos hE]
  have htrivia : ∀ q : ℚ,
      TriviaCommandConfig.Validate ⟨.finite q⟩ = none ↔ 0 ≤ q ∧ q ≤ 1 := by
    intro q
    rw [trivia_valid_iff, float_guard_finite]
  refine ⟨htrivia, fun K c q hq hgui hstatus => ?_, by decide, by decide, ?_, ?_,
    by decide, by decide, fun K c hgui hstatus hv => ?_⟩
  · rw [← float_guard_finite, ← hq]
    by_cases hE : c.EventsCorrectChance < 0 ∨ c.EventsCorrectChance > 1
    · exact ⟨fun h => absurd (hev K c hgui hstatus hE) h, fun h => absurd hE h⟩
    · refine ⟨fun _ => hE, fun _ h => ?_⟩
      exact validate_past_events K c hgui hstatus hE _ h (by decide)
  · have h : ¬ ((0 : ℚ) ≤ -1 / 10000 ∧ (-1 / 10000 : ℚ) ≤ 1) := by norm_num
    have hn := mt (htrivia (-1 / 10000)).mp h
    unfold TriviaCommandConfig.Validate at hn ⊢
    split_ifs at hn ⊢ with hg
    · rfl
    · exact absurd rfl hn
  · have h : ¬ ((0 : ℚ) ≤ 10001 / 10000 ∧ (10001 / 10000 : ℚ) ≤ 1) := by norm_num
    have hn := mt (htrivia (10001 / 10000)).mp h
    unfold TriviaCommandConfig.Validate at hn ⊢
    split_ifs at hn ⊢ with hg
    · rfl
    · exact absurd rfl hn
  · apply hev K c hgui hstatus
    by_contra hE
    rcases hv with h | h
    · rw [h, float_guard_finite] at hE
      norm_num at hE
    · rw [h, float_guard_finite] at hE
      norm_num at hE

/-- Witness for C5: the sample configuration with `EventsCorrectChance = 2`
passes the GUI and status steps and reports the events-chance failure. -/
theorem probability_valid_iff_witness :
    ¬ (Config.Validate Enums.spec { sampleConfig with EventsCorrectChance := .finite 2 } ≠
        some "eventsCorrectChance must be between 0 and 1") ∧
    Config.Validate Enums.spec { sampleConfig with EventsCorrectChance := .finite 1 } ≠
        some "eventsCorrectChance must be between 0 and 1" :=
  ⟨fun h =>
    absurd ((probability_valid_iff.2.1 Enums.spec
      { sampleConfig with EventsCorrectChance := .finite 2 } 2 rfl (by decide)
      (by decide)).mp h).2 (by decide),
   (probability_valid_iff.2.1 Enums.spec
      { sampleConfig with EventsCorrectChance := .finite 1 } 1 rfl (by decide)
      (by decide)).mpr ⟨by decide, by decide⟩⟩

/-- C6: the enum-constrained fields are checked by exact membership.
`GuiConfig.Validate` succeeds iff the theme is `System`, `Dark` or `Light`,
`isValidOnlineStatus` holds iff the status is one of the five constants,
`AdventureCommandConfig.Validate` succeeds iff the option is one of the four
constants; every other value fails with a message that ends in the value
itself.  With the constants spelled as the spec names them, the empty string
and a case-changed member fail. -/
theorem enum_valid_iff :
    (∀ (K : Enums) (g : GuiConfig),
      (g.Validate K = none ↔ g.Theme = K.System ∨ g.Theme = K.Dark ∨ g.Theme = K.Light) ∧
      (g.Validate K = none ∨ g.Validate K = some ("invalid theme: " ++ g.Theme))) ∧
    (∀ (K : Enums) (status : OnlineStatus),
      isValidOnlineStatus K status = true ↔
        status = K.OnlineStatusOnline ∨ status = K.OnlineStatusDND ∨
        status = K.OnlineStatusIdle ∨ status = K.OnlineStatusInvisible ∨
        status = K.OnlineStatusOffline) ∧
    (∀ (K : Enums) (c : Config), c.Gui.Validate K = none →
      isValidOnlineStatus K c.DiscordStatus = false →
      Config.Validate K c = some ("invalid discordStatus: " ++ c.DiscordStatus)) ∧
    (∀ (K : Enums) (a : AdventureCommandConfig),
      (a.Validate K = none ↔
        a.AdventureOption = K.Brazil ∨ a.AdventureOption = K.Space ∨
        a.AdventureOption = K.Vacation ∨ a.AdventureOption = K.West) ∧
      (a.Validate K = none ∨
        a.Validate K = some ("invalid adventure option: " ++ a.AdventureOption))) ∧
    GuiConfig.Validate Enums.spec ⟨""⟩ = some "invalid theme: " ∧
    GuiConfig.Validate Enums.spec ⟨"dark"⟩ = some "invalid theme: dark" ∧
    isValidOnlineStatus Enums.spec "" = false ∧
    isValidOnlineStatus Enums.spec "online" = false ∧
    AdventureCommandConfig.Validate Enums.spec ⟨""⟩ = some "invalid adventure option: " ∧
    AdventureCommandConfig.Validate Enums.spec ⟨"SPACE"⟩ =
      some "invalid adventure option: SPACE" := by
  refine ⟨fun K g => ?_, isValidOnlineStatus_iff, fun K c hgui hstatus => ?_, fun K a => ?_,
    by decide, by decide, by decide, by decide, by decide, by decide⟩
  · unfold GuiConfig.Validate
    by_cases h : g.Theme = K.System ∨ g.Theme = K.Dark ∨ g.Theme = K.Light
    · simp [if_pos h, h]
    · simp [if_neg h, h]
  · unfold Config.Validate
    simp [hgui, hstatus]
  · unfold AdventureCommandConfig.Validate
    rw [← mapIndex_validOptions]
    cases mapIndex (validOptions K) a.AdventureOption <;> simp

/-- Witness for C6: the sample configuration with the status `"online"`,
which is none of the five constants of `Enums.spec`. -/
theorem enum_valid_iff_witness :
    Config.Validate Enums.spec { sampleConfig with DiscordStatus := "online" } =
      some "invalid discordStatus: online" :=
  enum_valid_iff.2.2.1 Enums.spec { sampleConfig with DiscordStatus := "online" }
    (by decide) (by decide)

/-- C7: when the GUI, status, events-chance and cooldowns steps pass and
account `i` is the first with an empty `Token` or `ChannelID`,
`Config.Validate` fails with `accounts[i]: ` followed by that account's own
failure. -/
theorem Config.Validate_first_bad_account (K : Enums) (c : Config) (i : Nat)
    (a : AccountsConfig)
    (hgui : c.Gui.Validate K = none)
    (hstatus : isValidOnlineStatus K c.DiscordStatus = true)
    (hchance : ¬ (c.EventsCorrectChance < 0 ∨ c.EventsCorrectChance > 1))
    (hcooldowns : c.Cooldowns.Validate = none)
    (hi : c.Accounts[i]? = some a)
    (hbad : a.Token = "" ∨ a.ChannelID = "")
    (hfirst : ∀ j < i, ∀ b, c.Accounts[j]? = some b → b.Token ≠ "" ∧ b.ChannelID ≠ "") :
    ∃ e, a.Validate = some e ∧
      Config.Validate K c = some ("accounts[" ++ toString i ++ "]: " ++ e) := by
  cases ha : a.Validate with
  | none =>
    have := (account_valid_iff a).mp ha
    rcases hbad with h | h
    · exact absurd h this.1
    · exact absurd h this.2
  | some e =>
    refine ⟨e, rfl, ?_⟩
    have hloop := accountsLoop_first 0 i c.Accounts a e hi ha fun j hj b hb =>
      (account_valid_iff b).mpr (hfirst j hj b hb)
    have hE : ¬ (c.EventsCorrectChance < 0 ∨ c.EventsCorrectChance > 1) := hchance
    unfold Config.Validate
    simp only [hgui, hstatus, Bool.not_true, Bool.false_eq_true, if_false, if_neg hE,
      hcooldowns, hloop, Nat.zero_add, wrap_accounts]

/-- Witness for C7: the scenario of the spec, where the only account has the
token `abc` and no channel id, so that the failure names index 0 and the
missing channel id; and a list whose second account is the first bad one. -/
theorem Config.Validate_first_bad_account_witness :
    AccountsConfig.Validate ⟨"abc", ""⟩ = some "channelID is required" ∧
    (∃ e, AccountsConfig.Validate ⟨"abc", ""⟩ = some e ∧
      Config.Validate Enums.spec { sampleConfig with Accounts := [⟨"abc", ""⟩] } =
        some ("accounts[" ++ toString 0 ++ "]: " ++ e)) ∧
    (∃ e, AccountsConfig.Validate ⟨"", "7"⟩ = some e ∧
      Config.Validate Enums.spec
          { sampleConfig with Accounts := [⟨"abc", "7"⟩, ⟨"", "7"⟩, ⟨"", ""⟩] } =
        some ("accounts[" ++ toString 1 ++ "]: " ++ e)) :=
  ⟨by decide,
   Config.Validate_first_bad_account Enums.spec
    { sampleConfig with Accounts := [⟨"abc", ""⟩] } 0 ⟨"abc", ""⟩
    (by decide) (by decide) (by decide) (by decide) (by decide) (by decide)
    (fun j hj => absurd hj (Nat.not_lt_zero j)),
   Config.Validate_first_bad_account Enums.spec
    { sampleConfig with Accounts := [⟨"abc", "7"⟩, ⟨"", "7"⟩, ⟨"", ""⟩] } 1 ⟨"", "7"⟩
    (by decide) (by decide) (by decide) (by decide) (by decide) (by decide)
    (fun j hj b hb => by
      obtain rfl : j = 0 := by omega
      obtain rfl : (⟨"abc", "7"⟩ : AccountsConfig) = b := by simpa [sampleConfig] using hb
      decide)⟩

/-- C8: `CrimeCommandConfig.Validate` and `SearchCommandConfig.Validate` fail
exactly when `Priority` and `SecondPriority` are both empty, so either list
alone, or both, being non-empty is enough to succeed. -/
theorem priority_pair_fails_iff :
    (∀ c : CrimeCommandConfig,
      (c.Validate ≠ none ↔ c.Priority = [] ∧ c.SecondPriority = []) ∧
      (c.Validate = none ↔ c.Priority ≠ [] ∨ c.SecondPriority ≠ [])) ∧
    (∀ s : SearchCommandConfig,
      (s.Validate ≠ none ↔ s.Priority = [] ∧ s.SecondPriority = []) ∧
      (s.Validate = none ↔ s.Priority ≠ [] ∨ s.SecondPriority ≠ [])) := by
  constructor
  · intro c
    unfold CrimeCommandConfig.Validate
    by_cases h1 : c.Priority = [] <;> by_cases h2 : c.SecondPriority = [] <;> simp [h1, h2]
  · intro s
    unfold SearchCommandConfig.Validate
    by_cases h1 : s.Priority = [] <;> by_cases h2 : s.SecondPriority = [] <;> simp [h1, h2]

/-- C9: `Cooldowns.Validate` succeeds exactly when the button-click,
command-interval, start and event delays and the break duration satisfy
`0 ≤ min ≤ max` and the break cooldown satisfies `0 < min ≤ max`.  A break
duration of `(0, 0)` is accepted, a break cooldown of `(0, 0)` is not. -/
theorem Cooldowns.Validate_valid_iff :
    (∀ c : Cooldowns, c.Validate = none ↔
      (0 ≤ c.ButtonClickDelay.min ∧ c.ButtonClickDelay.min ≤ c.ButtonClickDelay.max) ∧
      (0 ≤ c.CommandInterval.min ∧ c.CommandInterval.min ≤ c.CommandInterval.max) ∧
      (0 ≤ c.StartDelay.min ∧ c.StartDelay.min ≤ c.StartDelay.max) ∧
      (0 ≤ c.EventDelay.min ∧ c.EventDelay.min ≤ c.EventDelay.max) ∧
      (0 ≤ c.BreakDuration.MinHours ∧ c.BreakDuration.MinHours ≤ c.BreakDuration.MaxHours) ∧
      (0 < c.BreakCooldown.MinHours ∧ c.BreakCooldown.MinHours ≤ c.BreakCooldown.MaxHours)) ∧
    Cooldowns.Validate { sampleCooldowns with BreakDuration := ⟨0, 0⟩ } = none ∧
    Cooldowns.Validate
      { sampleCooldowns with
        ButtonClickDelay := .seconds ⟨0, 0⟩, CommandInterval := .seconds ⟨0, 0⟩,
        StartDelay := .minutes ⟨0, 0⟩, EventDelay := .seconds ⟨0, 0⟩ } = none ∧
    Cooldowns.Validate { sampleCooldowns with BreakCooldown := ⟨0, 0⟩ } ≠ none := by
  refine ⟨fun c => ?_, by decide, by decide, by decide⟩
  rw [cooldowns_valid_iff_parts, delay_valid_iff, delay_valid_iff, delay_valid_iff,
    delay_valid_iff, delayHours_allowZero_valid_iff, delayHours_forbidZero_valid_iff]
  constructor
  · rintro ⟨h1, h2, ⟨⟨h3, _, h3'⟩, h3z, _⟩, ⟨h4, _, h4'⟩, h5, h6⟩
    exact ⟨h1, h2, h5, h6, ⟨h4, h4'⟩, lt_of_le_of_ne h3 (Ne.symm h3z), h3'⟩
  · rintro ⟨h1, h2, h5, h6, ⟨h4, h4'⟩, h3, h3'⟩
    have hmax : 0 < c.BreakCooldown.MaxHours := lt_of_lt_of_le h3 h3'
    exact ⟨h1, h2, ⟨⟨le_of_lt h3, le_of_lt hmax, h3'⟩, ne_of_gt h3, ne_of_gt hmax⟩,
      ⟨h4, le_trans h4 h4', h4'⟩, h5, h6⟩

/-- C10: when the button-click delay and the command interval are valid and
a bound of the break cooldown is `0`, `Cooldowns.Validate` fails with
`breakCooldown: break time cannot be 0`, and a configuration with these
cooldowns whose GUI, status and events-chance steps pass fails with
`cooldowns: breakCooldown: break time cannot be 0`. -/
theorem Cooldowns.Validate_zero_breakCooldown (cd : Cooldowns)
    (hclick : cd.ButtonClickDelay.Validate = none)
    (hinterval : cd.CommandInterval.Validate = none)
    (hzero : cd.BreakCooldown.MinHours = 0 ∨ cd.BreakCooldown.MaxHours = 0) :
    cd.Validate = some "breakCooldown: break time cannot be 0" ∧
    ∀ (K : Enums) (c : Config), c.Cooldowns = cd → c.Gui.Validate K = none →
      isValidOnlineStatus K c.DiscordStatus = true →
      ¬ (c.EventsCorrectChance < 0 ∨ c.EventsCorrectChance > 1) →
      Config.Validate K c = some "cooldowns: breakCooldown: break time cannot be 0" := by
  have hcd : cd.Validate = some "breakCooldown: break time cannot be 0" := by
    unfold Cooldowns.Validate
    simp only [hclick, hinterval, delayHours_forbidZero_of_zero cd.BreakCooldown hzero]
    rfl
  refine ⟨hcd, fun K c hc hgui hstatus hchance => ?_⟩
  have hE : ¬ (c.EventsCorrectChance < 0 ∨ c.EventsCorrectChance > 1) := hchance
  unfold Config.Validate
  simp only [hgui, hstatus, Bool.not_true, Bool.false_eq_true, if_false, if_neg hE, hc, hcd]
  rfl

/-- Witness for C10: the scenario of the spec, a break cooldown of
`(0, 10)`, in `zeroBreakConfig`. -/
theorem Cooldowns.Validate_zero_breakCooldown_witness :
    zeroBreakConfig.Cooldowns.BreakCooldown = ⟨0, 10⟩ ∧
    zeroBreakConfig.Cooldowns.Validate = some "breakCooldown: break time cannot be 0" ∧
    Config.Validate Enums.spec zeroBreakConfig =
      some "cooldowns: breakCooldown: break time cannot be 0" :=
  have h := Cooldowns.Validate_zero_breakCooldown zeroBreakConfig.Cooldowns
    (by decide) (by decide) (Or.inl (by decide))
  ⟨rfl, h.1, h.2 Enums.spec zeroBreakConfig rfl (by decide) (by decide) (by decide)⟩

/-- C11: `FishCommandConfig.Validate` checks emptiness first and then the
locations in list order.  An empty list gives the emptiness failure; a list
whose first element outside the six legal locations is `x` gives
`invalid fish location: x`, whatever comes later in the list and whatever the
sell value is.  The list `["Mars"]` names `Mars`. -/
theorem FishCommandConfig.Validate_location_order :
    (∀ (K : Enums) (f : FishCommandConfig), f.FishLocation = [] →
      f.Validate K = some "at least one fish location must be specified") ∧
    (∀ (K : Enums) (f : FishCommandConfig) (i : Nat) (x : DMG.FishLocation),
      f.FishLocation[i]? = some x → x ∉ fishLocationSet K →
      (∀ j < i, ∀ y, f.FishLocation[j]? = some y → y ∈ fishLocationSet K) →
      f.Validate K = some ("invalid fish location: " ++ x)) ∧
    (∀ v : ℚ, FishCommandConfig.Validate Enums.spec ⟨["Mars"], v⟩ =
      some "invalid fish location: Mars") := by
  have hfirst : ∀ (K : Enums) (f : FishCommandConfig) (i : Nat) (x : DMG.FishLocation),
      f.FishLocation[i]? = some x → x ∉ fishLocationSet K →
      (∀ j < i, ∀ y, f.FishLocation[j]? = some y → y ∈ fishLocationSet K) →
      f.Validate K = some ("invalid fish location: " ++ x) := by
    intro K f i x hi hx hbefore
    have hne : ¬ f.FishLocation.length = 0 := by
      intro h0
      rw [List.length_eq_zero] at h0
      simp [h0] at hi
    unfold FishCommandConfig.Validate
    rw [if_neg hne, locationLoop_first K f.FishLocation i x hi hx hbefore]
  refine ⟨fun K f h => ?_, hfirst, fun v => ?_⟩
  · unfold FishCommandConfig.Validate
    simp [h]
  · exact hfirst Enums.spec ⟨["Mars"], v⟩ 0 "Mars" rfl (by decide)
      (fun j hj => absurd hj (Nat.not_lt_zero j))

/-- Witness for C11: the first illegal location of
`["VertigoBeach", "Mars", "Moon"]` is `Mars`, at index 1, and the negative
sell value is not reported. -/
theorem FishCommandConfig.Validate_location_order_witness :
    FishCommandConfig.Validate Enums.spec ⟨["VertigoBeach", "Mars", "Moon"], -5⟩ =
      some ("invalid fish location: " ++ "Mars") :=
  FishCommandConfig.Validate_location_order.2.1 Enums.spec
    ⟨["VertigoBeach", "Mars", "Moon"], -5⟩ 1 "Mars" rfl (by decide)
    (fun j hj y hy => by
      obtain rfl : j = 0 := by omega
      obtain rfl : "VertigoBeach" = y := by simpa using hy
      decide)

/-- C12: when the location list is non-empty and every location is legal,
`FishCommandConfig.Validate` fails iff `SellCoinsValue < 0`, and then with
`sellCoinsValue cannot be negative`. -/
theorem FishCommandConfig.Validate_sell_value (K : Enums) (f : FishCommandConfig)
    (hne : f.FishLocation ≠ [])
    (hlegal : ∀ x ∈ f.FishLocation, x ∈ fishLocationSet K) :
    (f.Validate K ≠ none ↔ f.SellCoinsValue < 0) ∧
    (f.SellCoinsValue < 0 → f.Validate K = some "sellCoinsValue cannot be negative") := by
  have hlen : ¬ f.FishLocation.length = 0 := fun h => hne (List.length_eq_zero.mp h)
  have hloop := (locationLoop_eq_none_iff K f.FishLocation).mpr hlegal
  unfold FishCommandConfig.Validate
  rw [if_neg hlen, hloop]
  by_cases hs : f.SellCoinsValue < 0
  · simp [hs]
  · simp [hs]

/-- Witness for C12, the scenario of the spec: the location `VertigoBeach`
with the sell value `-5` fails on the sell value. -/
theorem FishCommandConfig.Validate_sell_value_witness :
    FishCommandConfig.Validate Enums.spec ⟨["VertigoBeach"], -5⟩ =
      some "sellCoinsValue cannot be negative" :=
  (FishCommandConfig.Validate_sell_value Enums.spec ⟨["VertigoBeach"], -5⟩
    (by decide) (by decide)).2 (by decide)

/-- C13: the delay sweep comes before the specialized validators.  When the
commands map, enumerated in any order, has an entry with a negative delay,
`CommandsConfig.Validate` fails with `<name>: delay cannot be negative` for
the first such entry visited, whatever the eight specialized sub-configs
hold. -/
theorem CommandsConfig.Validate_delay_sweep_first (K : Enums) (c : CommandsConfig)
    (hneg : ∃ p ∈ c.GetCommandsMap, p.2.Delay < 0) :
    ∃ p ∈ c.GetCommandsMap, p.2.Delay < 0 ∧
      (c.GetCommandsMap.filter negativeDelay).head? = some p ∧
      c.Validate K = some (p.1 ++ ": delay cannot be negative") := by
  obtain ⟨q, hq, hqneg⟩ := hneg
  have hqf : q ∈ c.GetCommandsMap.filter negativeDelay := by
    simp [List.mem_filter, hq, negativeDelay, hqneg]
  cases hf : c.GetCommandsMap.filter negativeDelay with
  | nil => rw [hf] at hqf; simp at hqf
  | cons p rest =>
    have hp : p ∈ c.GetCommandsMap.filter negativeDelay := by rw [hf]; simp
    rw [List.mem_filter] at hp
    refine ⟨p, hp.1, by simpa [negativeDelay] using hp.2, by simp, ?_⟩
    unfold CommandsConfig.Validate
    simp only [delayLoop_eq_head, hf, List.head?_cons, Option.map_some']

/-- Witness for C13: in `badCommands` the only negative delay belongs to
`Trivia`, and all eight specialized sub-configs are invalid. -/
theorem CommandsConfig.Validate_delay_sweep_first_witness :
    AdventureCommandConfig.Validate Enums.spec badCommands.Adventure ≠ none ∧
    ∃ p ∈ badCommands.GetCommandsMap, p.2.Delay < 0 ∧
      (badCommands.GetCommandsMap.filter negativeDelay).head? = some p ∧
      badCommands.Validate Enums.spec = some (p.1 ++ ": delay cannot be negative") :=
  ⟨by decide,
   CommandsConfig.Validate_delay_sweep_first Enums.spec badCommands
    ⟨("Trivia", ⟨-3⟩), by decide, by decide⟩⟩

/-- Counterexample to C14 as stated: the two enumerations of one commands
map (distinct keys, two negative delays) give different failure messages,
for `CommandsConfig.Validate` and for `Config.Validate`. -/
theorem Config.Validate_message_depends_on_order :
    twoNegativeCommandsSwapped.GetCommandsMap.Perm twoNegativeCommands.GetCommandsMap ∧
    (twoNegativeCommands.GetCommandsMap.map Prod.fst).Nodup ∧
    twoNegativeCommands.Validate Enums.spec = some "Adventure: delay cannot be negative" ∧
    twoNegativeCommandsSwapped.Validate Enums.spec = some "Fish: delay cannot be negative" ∧
    Config.Validate Enums.spec { sampleConfig with Commands := twoNegativeCommands } =
      some "commands: Adventure: delay cannot be negative" ∧
    Config.Validate Enums.spec { sampleConfig with Commands := twoNegativeCommandsSwapped } =
      some "commands: Fish: delay cannot be negative" := by
  refine ⟨List.Perm.swap _ _ _, by decide, by decide, by decide, by decide, by decide⟩

/-- C14 (amended): for a fixed enumeration `Config.Validate` is a function of
the tree.  Across two enumerations of the same commands map the
success/failure outcome of `Config.Validate` and of `CommandsConfig.Validate`
is the same, and the whole result, message included, is the same when at most
one entry of the map has a negative delay.  In every enumeration the entry
named by the delay failure is the first negative entry that enumeration
visits, so with two or more negative entries the message follows the
order. -/
theorem Config.Validate_order_of_map (K : Enums) (c : Config)
    (l : List (String × GeneralCommandConfig))
    (hperm : l.Perm c.Commands.GetCommandsMap) :
    (Config.Validate K { c with Commands := { c.Commands with CommandsMap := l } } = none ↔
      Config.Validate K c = none) ∧
    (CommandsConfig.Validate K { c.Commands with CommandsMap := l } = none ↔
      c.Commands.Validate K = none) ∧
    ((c.Commands.GetCommandsMap.filter negativeDelay).length ≤ 1 →
      Config.Validate K { c with Commands := { c.Commands with CommandsMap := l } } =
        Config.Validate K c ∧
      CommandsConfig.Validate K { c.Commands with CommandsMap := l } =
        c.Commands.Validate K) ∧
    (∀ (i : Nat) (p : String × GeneralCommandConfig), l[i]? = some p → p.2.Delay < 0 →
      (∀ j < i, l[j]?.map negativeDelay = some false) →
      CommandsConfig.Validate K { c.Commands with CommandsMap := l } =
        some (p.1 ++ ": delay cannot be negative") ∧
      (c.Gui.Validate K = none → isValidOnlineStatus K c.DiscordStatus = true →
        ¬ (c.EventsCorrectChance < 0 ∨ c.EventsCorrectChance > 1) →
        c.Cooldowns.Validate = none → (∀ a ∈ c.Accounts, a.Validate = none) →
        c.AutoBuy.Validate = none →
        Config.Validate K { c with Commands := { c.Commands with CommandsMap := l } } =
          some ("commands: " ++ (p.1 ++ ": delay cannot be negative")))) := by
  refine ⟨?_, ?_, fun hone => ⟨?_, ?_⟩, fun i p hi hneg hbefore => ?_⟩
  · exact validate_commands_none_congr K c _
      (commands_validate_none_congr K c.Commands l (delayLoop_perm_none _ _ hperm))
  · exact commands_validate_none_congr K c.Commands l (delayLoop_perm_none _ _ hperm)
  · exact validate_commands_congr K c _
      (commands_validate_congr K c.Commands l (delayLoop_perm_eq _ _ hperm hone))
  · exact commands_validate_congr K c.Commands l (delayLoop_perm_eq _ _ hperm hone)
  · have hloop := delayLoop_first l i p hi hneg hbefore
    have hcmd : CommandsConfig.Validate K { c.Commands with CommandsMap := l } =
        some (p.1 ++ ": delay cannot be negative") := by
      unfold CommandsConfig.Validate
      simp only [CommandsConfig.GetCommandsMap, hloop]
    refine ⟨hcmd, fun hgui hstatus hE hcool hacc hauto => ?_⟩
    have hl := (accountsLoop_eq_none_iff 0 c.Accounts).mpr hacc
    unfold Config.Validate
    simp only [hgui, hstatus, Bool.not_true, Bool.false_eq_true, if_false, if_neg hE, hcool,
      hl, hauto, hcmd]
    rfl

/-- Witness for C14 (amended): the commands of `badCommands`, whose map has
one negative delay, give the same result in another order; the map of
`twoNegativeCommands` enumerated with `Fish` first names `Fish`, and
enumerated with `Adventure` first names `Adventure`. -/
theorem Config.Validate_order_of_map_witness :
    Config.Validate Enums.spec
        { sampleConfig with
          Commands := { badCommands with
            CommandsMap := [("Trivia", ⟨-3⟩), ("Fish", ⟨0⟩), ("Adventure", ⟨5⟩)] } } =
      Config.Validate Enums.spec { sampleConfig with Commands := badCommands } ∧
    Config.Validate Enums.spec
        { sampleConfig with
          Commands := { twoNegativeCommands with
            CommandsMap := [("Fish", ⟨-2⟩), ("Adventure", ⟨-1⟩)] } } =
      some ("commands: " ++ ("Fish" ++ ": delay cannot be negative")) ∧
    Config.Validate Enums.spec
        { sampleConfig with
          Commands := { twoNegativeCommands with
            CommandsMap := [("Adventure", ⟨-1⟩), ("Fish", ⟨-2⟩)] } } =
      some ("commands: " ++ ("Adventure" ++ ": delay cannot be negative")) :=
  ⟨((Config.Validate_order_of_map Enums.spec { sampleConfig with Commands := badCommands }
      [("Trivia", ⟨-3⟩), ("Fish", ⟨0⟩), ("Adventure", ⟨5⟩)] (by decide)).2.2.1
      (by decide)).1,
   ((Config.Validate_order_of_map Enums.spec
      { sampleConfig with Commands := twoNegativeCommands }
      [("Fish", ⟨-2⟩), ("Adventure", ⟨-1⟩)] (List.Perm.swap _ _ _)).2.2.2
      0 ("Fish", ⟨-2⟩) rfl (by decide) (by decide)).2
      (by decide) (by decide) (by decide) (by decide) (by decide) (by decide),
   ((Config.Validate_order_of_map Enums.spec
      { sampleConfig with Commands := twoNegativeCommands }
      [("Adventure", ⟨-1⟩), ("Fish", ⟨-2⟩)] (List.Perm.refl _)).2.2.2
      0 ("Adventure", ⟨-1⟩) rfl (by decide) (by decide)).2
      (by decide) (by decide) (by decide) (by decide) (by decide) (by decide)⟩

/-- C15: an auto-buy quantity is constrained only when the item is enabled.
`GeneralAutobuyConfig.Validate` fails iff `State` is true and `Amount < 0`, so
a disabled item with a negative amount is accepted; `AutoBuyConfig.Validate`
succeeds iff no item is enabled with a negative amount, and on failure reports
the first failing item of hunting rifle, shovel, life savers under its
name. -/
theorem AutoBuyConfig.Validate_enabled_only :
    (∀ g : GeneralAutobuyConfig, g.Validate ≠ none ↔ g.State = true ∧ g.Amount < 0) ∧
    (∀ amount : ℚ, GeneralAutobuyConfig.Validate ⟨false, amount⟩ = none) ∧
    (∀ ab : AutoBuyConfig, ab.Validate = none ↔
      ¬ (ab.HuntingRifle.State = true ∧ ab.HuntingRifle.Amount < 0) ∧
      ¬ (ab.Shovel.State = true ∧ ab.Shovel.Amount < 0) ∧
      ¬ (ab.LifeSavers.State = true ∧ ab.LifeSavers.Amount < 0)) ∧
    (∀ (ab : AutoBuyConfig) (e : String), ab.HuntingRifle.Validate = some e →
      ab.Validate = some ("huntingRifle: " ++ e)) ∧
    (∀ (ab : AutoBuyConfig) (e : String), ab.HuntingRifle.Validate = none →
      ab.Shovel.Validate = some e → ab.Validate = some ("shovel: " ++ e)) ∧
    (∀ (ab : AutoBuyConfig) (e : String), ab.HuntingRifle.Validate = none →
      ab.Shovel.Validate = none → ab.LifeSavers.Validate = some e →
      ab.Validate = some ("lifeSavers: " ++ e)) := by
  have hg : ∀ g : GeneralAutobuyConfig,
      g.Validate = none ↔ ¬ (g.State = true ∧ g.Amount < 0) := by
    intro g
    unfold GeneralAutobuyConfig.Validate
    by_cases h : g.State = true ∧ g.Amount < 0
    · simp [if_pos h, h]
    · simp only [if_neg h, true_iff]
      exact h
  refine ⟨fun g => ?_, fun amount => ?_, fun ab => ?_, fun ab e h1 => ?_,
    fun ab e h1 h2 => ?_, fun ab e h1 h2 h3 => ?_⟩
  · rw [Ne, hg, not_not]
  · exact (hg _).mpr (by simp)
  · rw [← hg, ← hg, ← hg]
    unfold AutoBuyConfig.Validate
    cases ab.HuntingRifle.Validate <;> cases ab.Shovel.Validate <;>
      cases ab.LifeSavers.Validate <;> simp
  · unfold AutoBuyConfig.Validate
    rw [h1]
    rfl
  · unfold AutoBuyConfig.Validate
    rw [h1, h2]
    rfl
  · unfold AutoBuyConfig.Validate
    rw [h1, h2, h3]
    rfl

/-- Witness for C15: with the shovel and the life savers both enabled with a
negative amount, the shovel is the item reported. -/
theorem AutoBuyConfig.Validate_enabled_only_witness :
    AutoBuyConfig.Validate ⟨⟨false, -3⟩, ⟨true, -1⟩, ⟨true, -2⟩⟩ =
      some ("shovel: " ++ "amount must be >= 0 when enabled") :=
  AutoBuyConfig.Validate_enabled_only.2.2.2.2.1 ⟨⟨false, -3⟩, ⟨true, -1⟩, ⟨true, -2⟩⟩
    "amount must be >= 0 when enabled" (by decide) (by decide)

/-- C17: the range-pair validators that do not forbid zero test negativity
before ordering.  A pair with a negative bound fails with the negative-bound
message, also when it is disordered; the disordered message is reported
exactly for the pairs with both bounds non-negative and `min > max`. -/
theorem negativity_before_ordering :
    (∀ d : DelaySeconds,
      (d.MinSeconds < 0 ∨ d.MaxSeconds < 0 →
        d.Validate = some "delays cannot be negative") ∧
      (d.Validate = some "minSeconds cannot be greater than maxSeconds" ↔
        0 ≤ d.MinSeconds ∧ 0 ≤ d.MaxSeconds ∧ d.MinSeconds > d.MaxSeconds)) ∧
    (∀ d : DelayMinutes,
      (d.MinMinutes < 0 ∨ d.MaxMinutes < 0 →
        d.Validate = some "delays cannot be negative") ∧
      (d.Validate = some "minMinutes cannot be greater than maxMinutes" ↔
        0 ≤ d.MinMinutes ∧ 0 ≤ d.MaxMinutes ∧ d.MinMinutes > d.MaxMinutes)) ∧
    (∀ b : DelayHours,
      (b.MinHours < 0 ∨ b.MaxHours < 0 →
        b.Validate true = some "break time cannot be negative") ∧
      (b.Validate true = some "minHours cannot be greater than maxHours" ↔
        0 ≤ b.MinHours ∧ 0 ≤ b.MaxHours ∧ b.MinHours > b.MaxHours)) := by
  refine ⟨fun d => ?_, fun d => ?_, fun b => ?_⟩
  · unfold DelaySeconds.Validate
    by_cases h1 : d.MinSeconds < 0 ∨ d.MaxSeconds < 0
    · rw [if_pos h1]
      refine ⟨fun _ => rfl, fun h => absurd h (by decide), fun ⟨a, b, _⟩ => ?_⟩
      rcases h1 with h | h
      · exact absurd a (not_le.mpr h)
      · exact absurd b (not_le.mpr h)
    · rw [if_neg h1]
      have h1' := not_or.mp h1
      refine ⟨fun h => absurd h h1, ?_⟩
      by_cases h2 : d.MinSeconds > d.MaxSeconds
      · rw [if_pos h2]
        exact ⟨fun _ => ⟨not_lt.mp h1'.1, not_lt.mp h1'.2, h2⟩, fun _ => rfl⟩
      · rw [if_neg h2]
        exact ⟨fun h => absurd h (by simp), fun ⟨_, _, c⟩ => absurd c h2⟩
  · unfold DelayMinutes.Validate
    by_cases h1 : d.MinMinutes < 0 ∨ d.MaxMinutes < 0
    · rw [if_pos h1]
      refine ⟨fun _ => rfl, fun h => absurd h (by decide), fun ⟨a, b, _⟩ => ?_⟩
      rcases h1 with h | h
      · exact absurd a (not_le.mpr h)
      · exact absurd b (not_le.mpr h)
    · rw [if_neg h1]
      have h1' := not_or.mp h1
      refine ⟨fun h => absurd h h1, ?_⟩
      by_cases h2 : d.MinMinutes > d.MaxMinutes
      · rw [if_pos h2]
        exact ⟨fun _ => ⟨not_lt.mp h1'.1, not_lt.mp h1'.2, h2⟩, fun _ => rfl⟩
      · rw [if_neg h2]
        exact ⟨fun h => absurd h (by simp), fun ⟨_, _, c⟩ => absurd c h2⟩
  · unfold DelayHours.Validate
    rw [if_neg (by simp)]
    by_cases h1 : b.MinHours < 0 ∨ b.MaxHours < 0
    · rw [if_pos h1]
      refine ⟨fun _ => rfl, fun h => absurd h (by decide), fun ⟨a, b, _⟩ => ?_⟩
      rcases h1 with h | h
      · exact absurd a (not_le.mpr h)
      · exact absurd b (not_le.mpr h)
    · rw [if_neg h1]
      have h1' := not_or.mp h1
      refine ⟨fun h => absurd h h1, ?_⟩
      by_cases h2 : b.MinHours > b.MaxHours
      · rw [if_pos h2]
        exact ⟨fun _ => ⟨not_lt.mp h1'.1, not_lt.mp h1'.2, h2⟩, fun _ => rfl⟩
      · rw [if_neg h2]
        exact ⟨fun h => absurd h (by simp), fun ⟨_, _, c⟩ => absurd c h2⟩

/-- Witness for C17: the pair `(3, -1)` is negative and disordered and is
reported as negative by all three validators. -/
theorem negativity_before_ordering_witness :
    DelaySeconds.Validate ⟨3, -1⟩ = some "delays cannot be negative" ∧
    DelayMinutes.Validate ⟨3, -1⟩ = some "delays cannot be negative" ∧
    DelayHours.Validate ⟨3, -1⟩ true = some "break time cannot be negative" :=
  ⟨(negativity_before_ordering.1 ⟨3, -1⟩).1 (Or.inr (by decide)),
   (negativity_before_ordering.2.1 ⟨3, -1⟩).1 (Or.inr (by decide)),
   (negativity_before_ordering.2.2 ⟨3, -1⟩).1 (Or.inr (by decide))⟩

/-- C19: the success/failure outcome of `CommandsConfig.Validate` is the same
for every enumeration of the commands map, and when at most one entry has a
negative delay the failure message is the same as well. -/
theorem CommandsConfig.Validate_order_independent (K : Enums) (c : CommandsConfig)
    (l : List (String × GeneralCommandConfig)) (hperm : l.Perm c.GetCommandsMap) :
    (CommandsConfig.Validate K { c with CommandsMap := l } = none ↔ c.Validate K = none) ∧
    ((c.GetCommandsMap.filter negativeDelay).length ≤ 1 →
      CommandsConfig.Validate K { c with CommandsMap := l } = c.Validate K) :=
  ⟨commands_validate_none_congr K c l (delayLoop_perm_none _ _ hperm),
   fun hone => commands_validate_congr K c l (delayLoop_perm_eq _ _ hperm hone)⟩

/-- Witness for C19: `badCommands`, whose map has one negative delay,
enumerated in another order, fails with the same message; and the two
enumerations of `twoNegativeCommands` both fail. -/
theorem CommandsConfig.Validate_order_independent_witness :
    CommandsConfig.Validate Enums.spec
        { badCommands with
          CommandsMap := [("Fish", ⟨0⟩), ("Trivia", ⟨-3⟩), ("Adventure", ⟨5⟩)] } =
      badCommands.Validate Enums.spec ∧
    (CommandsConfig.Validate Enums.spec
        { twoNegativeCommands with CommandsMap := [("Fish", ⟨-2⟩), ("Adventure", ⟨-1⟩)] }
        = none ↔
      twoNegativeCommands.Validate Enums.spec = none) :=
  ⟨(CommandsConfig.Validate_order_independent Enums.spec badCommands
      [("Fish", ⟨0⟩), ("Trivia", ⟨-3⟩), ("Adventure", ⟨5⟩)] (by decide)).2 (by decide),
   (CommandsConfig.Validate_order_independent Enums.spec twoNegativeCommands
      [("Fish", ⟨-2⟩), ("Adventure", ⟨-1⟩)] (List.Perm.swap _ _ _)).1⟩

/-- C16: path annotation keeps the child's failure and puts the path segment
before it.  In `Config.Validate`, `Cooldowns.Validate`,
`AutoBuyConfig.Validate` and `CommandsConfig.Validate`, when the section
`segment` is the first one to fail, with message `m`, the parent's message is
`segment ++ ": " ++ m`; the segments are the section names, `accounts[i]` for
account `i`.  A leaf failure below the commands section reaches the root as
`commands: <command>: <leaf message>`, for instance
`commands: fish: invalid fish location: Mars`. -/
theorem section_failure_under_segment :
    (∀ (K : Enums) (c : Config) (k : Nat) (segment m : String),
      isValidOnlineStatus K c.DiscordStatus = true →
      ¬ (c.EventsCorrectChance < 0 ∨ c.EventsCorrectChance > 1) →
      (Config.sections K c)[k]? = some (segment, some m) →
      (∀ j < k, (Config.sections K c)[j]?.map Prod.snd = some none) →
      Config.Validate K c = some (segment ++ ": " ++ m)) ∧
    (∀ (K : Enums) (c : Config) (m : String), c.Gui.Validate K = some m →
      Config.Validate K c = some ("gui: " ++ m)) ∧
    (∀ (c : Cooldowns) (k : Nat) (segment m : String),
      c.sections[k]? = some (segment, some m) →
      (∀ j < k, c.sections[j]?.map Prod.snd = some none) →
      c.Validate = some (segment ++ ": " ++ m)) ∧
    (∀ (ab : AutoBuyConfig) (k : Nat) (segment m : String),
      ab.sections[k]? = some (segment, some m) →
      (∀ j < k, ab.sections[j]?.map Prod.snd = some none) →
      ab.Validate = some (segment ++ ": " ++ m)) ∧
    (∀ (K : Enums) (c : CommandsConfig) (k : Nat) (segment m : String),
      (∀ p ∈ c.GetCommandsMap, ¬ p.2.Delay < 0) →
      (c.sections K)[k]? = some (segment, some m) →
      (∀ j < k, (c.sections K)[j]?.map Prod.snd = some none) →
      c.Validate K = some (segment ++ ": " ++ m)) ∧
    (∀ (K : Enums) (c : Config) (k : Nat) (segment m : String),
      c.Gui.Validate K = none → isValidOnlineStatus K c.DiscordStatus = true →
      ¬ (c.EventsCorrectChance < 0 ∨ c.EventsCorrectChance > 1) →
      c.Cooldowns.Validate = none → (∀ a ∈ c.Accounts, a.Validate = none) →
      c.AutoBuy.Validate = none →
      (∀ p ∈ c.Commands.GetCommandsMap, ¬ p.2.Delay < 0) →
      (c.Commands.sections K)[k]? = some (segment, some m) →
      (∀ j < k, (c.Commands.sections K)[j]?.map Prod.snd = some none) →
      Config.Validate K c = some ("commands: " ++ (segment ++ ": " ++ m))) ∧
    (∀ (K : Enums) (c : Config), (Config.sections K c).map Prod.fst =
      ["gui", "cooldowns"] ++
        (List.range c.Accounts.length).map (fun i => "accounts[" ++ toString i ++ "]") ++
        ["autoBuy", "commands"]) ∧
    (∀ c : Cooldowns, c.sections.map Prod.fst =
      ["buttonClickDelay", "commandInterval", "breakCooldown", "breakDuration", "startDelay",
        "eventDelay"]) ∧
    (∀ ab : AutoBuyConfig, ab.sections.map Prod.fst = ["huntingRifle", "shovel", "lifeSavers"]) ∧
    (∀ (K : Enums) (c : CommandsConfig), (c.sections K).map Prod.fst =
      ["adventure", "blackjack", "crime", "fish", "stream", "search", "postMemes", "trivia"]) ∧
    Config.Validate Enums.spec marsConfig =
      some "commands: fish: invalid fish location: Mars" := by
  have hcmd : ∀ (K : Enums) (c : CommandsConfig) (k : Nat) (segment m : String),
      (∀ p ∈ c.GetCommandsMap, ¬ p.2.Delay < 0) →
      (c.sections K)[k]? = some (segment, some m) →
      (∀ j < k, (c.sections K)[j]?.map Prod.snd = some none) →
      c.Validate K = some (segment ++ ": " ++ m) := by
    intro K c k segment m hdelay hk hbefore
    rw [commands_eq_firstFailure K c hdelay]
    exact firstFailure_annotated _ k segment m hk hbefore
  refine ⟨?_, ?_, ?_, ?_, hcmd, ?_, ?_, fun _ => rfl, fun _ => rfl, fun _ _ => rfl, by decide⟩
  · intro K c k segment m hstatus hchance hk hbefore
    rw [validate_eq_firstFailure_sections K c hstatus hchance]
    exact firstFailure_annotated _ k segment m hk hbefore
  · intro K c m hgui
    unfold Config.Validate
    rw [hgui]
    rfl
  · intro c k segment m hk hbefore
    rw [cooldowns_eq_firstFailure]
    exact firstFailure_annotated _ k segment m hk hbefore
  · intro ab k segment m hk hbefore
    rw [autoBuy_eq_firstFailure]
    exact firstFailure_annotated _ k segment m hk hbefore
  · intro K c k segment m hgui hstatus hchance hcool hacc hauto hdelay hk hbefore
    have hE : ¬ (c.EventsCorrectChance < 0 ∨ c.EventsCorrectChance > 1) := hchance
    have hloop := (accountsLoop_eq_none_iff 0 c.Accounts).mpr hacc
    have hc := hcmd K c.Commands k segment m hdelay hk hbefore
    unfold Config.Validate
    simp only [hgui, hstatus, Bool.not_true, Bool.false_eq_true, if_false, if_neg hE, hcool,
      hloop, hauto, hc]
    rfl
  · intro K c
    have h := map_enumFrom_index (fun i => "accounts[" ++ toString i ++ "]") 0 c.Accounts
    simp only [Config.sections, List.enum, List.map_append, List.map_map, Function.comp_def,
      List.range_eq_range', h]
    rfl

/-- Witness for C16: in `zeroBreakConfig` the cooldowns section is the first
section of the root to fail; in `marsConfig` the fish validator is the first
specialized validator to fail and the root reports it two levels up. -/
theorem section_failure_under_segment_witness :
    Config.Validate Enums.spec zeroBreakConfig =
      some ("cooldowns" ++ ": " ++ "breakCooldown: break time cannot be 0") ∧
    Config.Validate Enums.spec marsConfig =
      some ("commands: " ++ ("fish" ++ ": " ++ "invalid fish location: Mars")) :=
  ⟨section_failure_under_segment.1 Enums.spec zeroBreakConfig 1 "cooldowns"
      "breakCooldown: break time cannot be 0" (by decide) (by decide) (by decide) (by decide),
   section_failure_under_segment.2.2.2.2.2.1 Enums.spec marsConfig 3 "fish" "invalid fish location: Mars"
      (by decide) (by decide) (by decide) (by decide) (by decide) (by decide) (by decide)
      (by decide) (by decide)⟩

/-- C20: the account step asks for no minimum number of accounts.  With an
empty `Accounts` the result of `Config.Validate` is the one it gives with the
accounts step left out, so a configuration without accounts whose other
steps all pass is accepted. -/
theorem Config.Validate_no_accounts (K : Enums) (c : Config) (hempty : c.Accounts = []) :
    Config.Validate K c = Config.ValidateWithoutAccounts K c ∧
    (c.Gui.Validate K = none → isValidOnlineStatus K c.DiscordStatus = true →
      ¬ (c.EventsCorrectChance < 0 ∨ c.EventsCorrectChance > 1) →
      c.Cooldowns.Validate = none → c.AutoBuy.Validate = none →
      c.Commands.Validate K = none → Config.Validate K c = none) := by
  have heq : Config.Validate K c = Config.ValidateWithoutAccounts K c := by
    unfold Config.Validate Config.ValidateWithoutAccounts
    simp only [hempty, Config.accountsLoop]
  refine ⟨heq, fun hgui hstatus hchance hcool hauto hcmd => ?_⟩
  have hE : ¬ (c.EventsCorrectChance < 0 ∨ c.EventsCorrectChance > 1) := hchance
  rw [heq]
  unfold Config.ValidateWithoutAccounts
  simp only [hgui, hstatus, Bool.not_true, Bool.false_eq_true, if_false, if_neg hE, hcool,
    hauto, hcmd]

/-- Witness for C20: the sample configuration with no account at all is
accepted. -/
theorem Config.Validate_no_accounts_witness :
    Config.Validate Enums.spec { sampleConfig with Accounts := [] } = none :=
  (Config.Validate_no_accounts Enums.spec { sampleConfig with Accounts := [] } rfl).2
    (by decide) (by decide) (by decide) (by decide) (by decide) (by decide)

end DMG
